import Mathlib

/-!
ESP32 music player: navigation, sequencing and MP3 header parsing.

A shallow embedding of the parts of `src/main.cpp` that the verified
properties talk about.  Machine integers are natural numbers or integers
with the wrap-around written out; C strings are lists of characters; the
SD-card file is the list of its bytes.
-/

namespace ESP32Player

/-! ## Machine integers -/

/-- Conversion of an integer value to `int8_t` (two's complement wrap). -/
def toInt8 (x : Int) : Int := (x + 128) % 256 - 128

/-- Conversion of an integer value to `uint8_t`. -/
def toUInt8 (x : Int) : Nat := (x % 256).toNat

/-! ## Data model -/

/-- Capacity of the listing buffer: `#define N_BUF 50`. -/
def N_BUF : Nat := 50

/-- The record `struct Dir`: one level of the directory history. -/
structure Dir where
  path : List Char
  numSelectFile : Nat
  totalFileCount : Nat
  dirCount : Nat
deriving DecidableEq, Repr

/-- The record `struct Buffer`: one entry of the file list buffer. -/
structure Buffer where
  filename : List Char
  isDir : Bool
deriving DecidableEq, Repr

/-! ## Playback sequencer: `makeIndex` and `shuffleIndex` -/

/-- The function `makeIndex`: a fresh order array with `subscript[i] = i`
for `i < num`. -/
def makeIndex (dir : Dir) : List Nat :=
  List.range (dir.totalFileCount % 256)

/-- The statement macro `swap(uint8_t, subscript[i], subscript[j])`:
`t = x; x = y; y = t`. -/
def swap (sub : List Nat) (i j : Nat) : List Nat :=
  let t := sub.getD i 0
  (sub.set i (sub.getD j 0)).set j t

/-- The `for` loop of `shuffleIndex`.  The first argument is the number of
iterations still to run, so the loop variable of the current iteration is
`i` in the pattern `i + 1`; `c` counts the calls of `random` made so far and
`rand c` is the value the `c`-th call returns (stored in a `uint8_t`). -/
def shuffleIndexLoop (numSelectFile : Nat) (rand : Nat → Nat) :
    Nat → Nat → List Nat → List Nat
  | 0, _, sub => sub
  | i + 1, c, sub =>
    let j := rand c % 256
    let sub1 :=
      if i ≠ j ∧ i ≠ numSelectFile ∧ j ≠ numSelectFile then swap sub i j else sub
    shuffleIndexLoop numSelectFile rand i (c + 1) sub1

/-- The function `shuffleIndex`: `int8_t num = dir->totalFileCount`, then
`for (int8_t i = num - 1; i >= 0; i--)` with one call of `random(num)` per
iteration. -/
def shuffleIndex (dir : Dir) (subscript : List Nat) (rand : Nat → Nat) : List Nat :=
  let num : Int := toInt8 (dir.totalFileCount : Int)
  let start : Int := toInt8 (num - 1)
  shuffleIndexLoop dir.numSelectFile rand (start + 1).toNat 0 subscript

/-! ## Supported formats and song paths -/

/-- The method `String::endsWith`. -/
def endsWith (s ending : List Char) : Bool := ending.isSuffixOf s

/-- The function `isSupportedFormat(const String filename)`: only the
`.mp3` test is active in the source. -/
def isSupportedFormat (filename : List Char) : Bool :=
  endsWith filename ['.', 'm', 'p', '3']

/-- The path built in `getNextPath` and `getPrevPath`:
`"/" + filename` when `dir->path == "/"`, else `dir->path + "/" + filename`. -/
def songPathOf (dir : Dir) (filename : List Char) : List Char :=
  if dir.path = ['/'] then '/' :: filename else dir.path ++ '/' :: filename

/-! ## Playback sequencer: `getNextPath` and `getPrevPath` -/

/-- Ways a run of the sequencer can leave the modelled memory or the
modelled time: a loop that used up its fuel, a read of `subscript` outside
the allocated array, a read of `buffer` outside the listing buffer. -/
inductive Fault where
  | outOfFuel : Fault
  | subscriptOutOfBounds : Int → Fault
  | bufferOutOfBounds : Nat → Fault
deriving DecidableEq, Repr

deriving instance DecidableEq for Except

/-- The read `subscript[select]` with an `int8_t` index: defined only inside
the array allocated by `makeIndex`. -/
def readSubscript (subscript : List Nat) (select : Int) : Except Fault Nat :=
  if 0 ≤ select then
    match subscript[select.toNat]? with
    | some v => .ok v
    | none => .error (.subscriptOutOfBounds select)
  else .error (.subscriptOutOfBounds select)

/-- The two nested `do ... while` loops of `getNextPath`, fused into one
loop whose every iteration is one advance of `select`: an entry flagged
`isDir` repeats the inner loop; a non-directory entry leaves the inner loop,
builds `songPath`, stores `dir->numSelectFile = select`, and either returns
(supported format) or repeats the outer loop, which re-enters the inner one.
The fuel bounds the number of advances. -/
def getNextPathLoop (buffer : List Buffer) (subscript : List Nat) :
    Nat → Dir → Int → Except Fault (List Char × Dir)
  | 0, _, _ => .error .outOfFuel
  | fuel + 1, dir, select =>
    let select1 : Int :=
      if select ≥ (dir.totalFileCount : Int) - 1 then 0 else toInt8 (select + 1)
    match readSubscript subscript select1 with
    | .error e => .error e
    | .ok idx =>
      match buffer[idx]? with
      | none => .error (.bufferOutOfBounds idx)
      | some entry =>
        if entry.isDir then getNextPathLoop buffer subscript fuel dir select1
        else
          let songPath := songPathOf dir entry.filename
          let dir1 := { dir with numSelectFile := toUInt8 select1 }
          if isSupportedFormat songPath then .ok (songPath, dir1)
          else getNextPathLoop buffer subscript fuel dir1 select1

/-- The function `getNextPath`: `int8_t select = dir->numSelectFile`, then
the loops.  Returns the song path and the updated level. -/
def getNextPath (fuel : Nat) (dir : Dir) (buffer : List Buffer)
    (subscript : List Nat) : Except Fault (List Char × Dir) :=
  getNextPathLoop buffer subscript fuel dir (toInt8 (dir.numSelectFile : Int))

/-- The two nested `do ... while` loops of `getPrevPath`, fused as in
`getNextPathLoop`.  One retreat is `if (select < 0) select =
dir->totalFileCount - 1; else select--;`, and the entry read right after it is
`subscript[select]` whatever the sign of `select`. -/
def getPrevPathLoop (buffer : List Buffer) (subscript : List Nat) :
    Nat → Dir → Int → Except Fault (List Char × Dir)
  | 0, _, _ => .error .outOfFuel
  | fuel + 1, dir, select =>
    let select1 : Int :=
      if select < 0 then toInt8 ((dir.totalFileCount : Int) - 1) else toInt8 (select - 1)
    match readSubscript subscript select1 with
    | .error e => .error e
    | .ok idx =>
      match buffer[idx]? with
      | none => .error (.bufferOutOfBounds idx)
      | some entry =>
        if entry.isDir then getPrevPathLoop buffer subscript fuel dir select1
        else
          let songPath := songPathOf dir entry.filename
          let dir1 := { dir with numSelectFile := toUInt8 select1 }
          if isSupportedFormat songPath then .ok (songPath, dir1)
          else getPrevPathLoop buffer subscript fuel dir1 select1

/-- The function `getPrevPath`. -/
def getPrevPath (fuel : Nat) (dir : Dir) (buffer : List Buffer)
    (subscript : List Nat) : Except Fault (List Char × Dir) :=
  getPrevPathLoop buffer subscript fuel dir (toInt8 (dir.numSelectFile : Int))

/-- The listing entry shown at position `p` of the play order:
`buffer[subscript[p]]`. -/
def entryAt (buffer : List Buffer) (subscript : List Nat) (p : Nat) : Option Buffer :=
  match subscript[p]? with
  | some idx => buffer[idx]?
  | none => none

/-- A playable entry: not a directory, and the name has a supported format. -/
def playable (e : Buffer) : Bool := !e.isDir && isSupportedFormat e.filename

/-! ## Binary metadata parser: `getTagData` and `getmp3TotalTime`

The file is the list of its bytes.  `File::read(buf, n)` copies the bytes
that are left from the current position, at most `n`, to the front of `buf`
and returns how many it copied; for an open file it never returns `-1`.
`File::seek` sets the position; a read at or past the end copies nothing.
Local arrays that the source does not initialise (`buff_mFrameHeader`,
`tag`) start with arbitrary contents, which are parameters of the model. -/

/-- The record `struct MPEGFrameHeader`. -/
structure MPEGFrameHeader where
  bitrate : Nat
  sampling_rate : Nat
  padding_bit : Nat
  channel : Nat
deriving DecidableEq, Repr

/-- The constant `MPEGFRAME_HEADER_SIZE`. -/
def MPEGFRAME_HEADER_SIZE : Nat := 4

/-- The constant `ID3v1_SIZE`. -/
def ID3v1_SIZE : Nat := 128

/-- The local table `uint16_t bitrate[16]` of `getTagData`. -/
def bitrate : List Nat :=
  [0, 32, 40, 48, 56, 64, 80, 96, 112, 128, 160, 192, 224, 256, 320, 0]

/-- The local table `uint16_t sampling_rate[4]` of `getTagData`. -/
def sampling_rate : List Nat := [44100, 48000, 32000, 0]

/-- The call `file.read(buf, n)` at position `pos`: the new contents of `buf`
and the number of bytes read. -/
def fileRead (data : List Nat) (pos n : Nat) (buf : List Nat) : List Nat × Nat :=
  let got := ((data.drop pos).take n).map (fun b => b % 256)
  (got ++ buf.drop got.length, got.length)

/-- The first read of `getTagData`: `struct ID3v2Header header = {0}` filled
by `file.read(&header, sizeof(header))`; the count goes to the `uint16_t
posBuff`. -/
def readID3v2Header (data : List Nat) : List Nat × Nat :=
  let r := fileRead data 0 10 (List.replicate 10 0)
  (r.1, r.2 % 65536)

/-- The test `memcmp(header.tag, "ID3", 3) == 0`. -/
def hasID3 (header : List Nat) : Bool := header.take 3 == [0x49, 0x44, 0x33]

/-- The expression `(header.size[0] << 21) + (header.size[1] << 14) +
(header.size[2] << 7) + header.size[3]`, stored in a `uint32_t`; the size
bytes are bytes 6 to 9 of the header. -/
def ID3v2_size (header : List Nat) : Nat :=
  ((header.getD 6 0 <<< 21) + (header.getD 7 0 <<< 14) + (header.getD 8 0 <<< 7) +
    header.getD 9 0) % 2 ^ 32

/-- The value of `tagpos` when the frame header is read, which is the offset
the file was positioned at: `posBuff + ID3v2_size` after an `ID3` marker
(`file.seek(tagpos)`), else `0` (`file.seek(0)`). -/
def frameHeaderPos (data : List Nat) : Nat :=
  let header := readID3v2Header data
  if hasID3 header.1 then (header.2 + ID3v2_size header.1) % 2 ^ 32 else 0

/-- The function `getTagData` on an open or unopened file (`none` models
`!file`).  Result: the returned `size_t` and the global `mFrameHeader` after
the call.  `old` is `mFrameHeader` before the call; `uninitHdr` and
`uninitTag` are the contents of the uninitialised locals. -/
def getTagData (file : Option (List Nat)) (old : MPEGFrameHeader)
    (uninitHdr uninitTag : List Nat) : Nat × MPEGFrameHeader :=
  match file with
  | none => (0, old)
  | some data =>
    let tagpos := frameHeaderPos data
    let buff := (fileRead data tagpos 4 uninitHdr).1
    let combine0 := (((buff.getD 0 0 % 256) <<< 24) + ((buff.getD 1 0 % 256) <<< 16) +
      ((buff.getD 2 0 % 256) <<< 8) + buff.getD 3 0 % 256) % 2 ^ 32
    let combine1 := combine0 >>> 6
    -- `!((combine_mFrameHeader >> 15) && 0x07FF)`, with the logical and
    if !(decide (combine1 >>> 15 ≠ 0) && decide (0x07FF ≠ 0)) then
      (0, ⟨0, 0, 0, 0⟩)
    else
      let combine2 := combine1 &&& 0x03FF
      let channel := combine2 &&& 0x03
      let combine3 := combine2 >>> 2
      let padding_bit := combine3 &&& 0x03
      let combine4 := combine3 >>> 2
      let samplingrateBit := combine4 &&& 0x03
      let combine5 := combine4 >>> 2
      let bitrateBit := combine5 &&& 0x0F
      let combine6 := combine5 >>> 4
      if combine6 ≠ 0 then
        (2 ^ 32 - 8, ⟨0, 0, padding_bit, channel⟩)
      else
        let hdr : MPEGFrameHeader :=
          ⟨bitrate.getD bitrateBit 0, sampling_rate.getD samplingrateBit 0,
            padding_bit, channel⟩
        if hdr.bitrate = 0 then (0, hdr)
        else if hdr.sampling_rate = 0 then (0, hdr)
        else
          let header_size := tagpos + MPEGFRAME_HEADER_SIZE
          -- `file.seek(file.size() - ID3v1_SIZE)` in `size_t` arithmetic
          let tagSeek := (data.length + 2 ^ 32 - ID3v1_SIZE) % 2 ^ 32
          let tag := (fileRead data tagSeek 3 uninitTag).1
          let footer_size := if tag.take 3 == [0x54, 0x41, 0x47] then ID3v1_SIZE else 0
          ((header_size + footer_size) % 2 ^ 32, hdr)

/-- The function `getmp3TotalTime`, given the file that `SD.open(path)`
yields.  The `double` result is modelled by the exact rational value of
`frame_count * (1152.0 / sampling_rate)`; the integer steps before it
(`size_t` subtraction and division) are as in the source. -/
def getmp3TotalTime (file : Option (List Nat)) (old : MPEGFrameHeader)
    (uninitHdr uninitTag : List Nat) : ℚ :=
  let r := getTagData file old uninitHdr uninitTag
  let tag_size := r.1
  let mFrameHeader := r.2
  if tag_size = 0 then -1
  else
    let size := match file with
      | some data => data.length
      | none => 0
    let mpeg_size := (size + 2 ^ 32 - tag_size) % 2 ^ 32
    let frame_size := (144 * (mFrameHeader.bitrate * 1000) / mFrameHeader.sampling_rate +
      mFrameHeader.padding_bit) % 2 ^ 32
    let frame_count : Nat := mpeg_size / frame_size
    (frame_count : ℚ) * (1152 / (mFrameHeader.sampling_rate : ℚ))

/-- A file with a leading `ID3` tag of total length 10 (all four size bytes
zero), the four given frame header bytes at offset 10, 417 payload bytes and
a trailing 128-byte `TAG` block: 559 bytes in all. -/
def taggedFile (h0 h1 h2 h3 : Nat) : List Nat :=
  [0x49, 0x44, 0x33, 3, 0, 0, 0, 0, 0, 0] ++ [h0, h1, h2, h3] ++
    List.replicate 417 0 ++ [0x54, 0x41, 0x47] ++ List.replicate 125 0

/-- A file without tags: the four given bytes followed by 128 zero bytes. -/
def bareFile (h0 h1 h2 h3 : Nat) : List Nat :=
  [h0, h1, h2, h3] ++ List.replicate 128 0

/-- The syncsafe value of four size bytes, each byte's top bit ignored. -/
def syncsafe (b0 b1 b2 b3 : Nat) : Nat :=
  (b0 &&& 0x7F) * 2 ^ 21 + (b1 &&& 0x7F) * 2 ^ 14 + (b2 &&& 0x7F) * 2 ^ 7 + (b3 &&& 0x7F)

/-! ## Directory navigator: `initDirBuffer`

The directory handle is the list of entries that `openNextFile` yields, in
enumeration order; `rewindDirectory` starts the same list again. -/

/-- An enumerated entry (`File entry = file.openNextFile()`): what
`entry.name()` and `entry.isDirectory()` return. -/
structure File where
  name : List Char
  isDirectory : Bool
deriving DecidableEq, Repr

/-- The function `isDirectoryHideSys`. -/
def isDirectoryHideSys (file : File) : Bool :=
  if file.name = "System Volume Information".toList then false else file.isDirectory

/-- The function `clearBuffer`: the first `nArray` entries get an empty name
and `isDir = false`. -/
def clearBuffer (buf : List Buffer) (nArray : Nat) : List Buffer :=
  (buf.take nArray).map (fun _ => ⟨[], false⟩) ++ buf.drop nArray

/-- The state of `initDirBuffer` while it runs: the buffer, the two `uint8_t`
counters, and the indices of the stores that fell outside the buffer, in the
order they happened. -/
structure Listing where
  buf : List Buffer
  fileCount : Nat
  dirCount : Nat
  outside : List Nat
deriving DecidableEq, Repr

/-- The stores of one collected entry: `(buf + fileCount)->isDir = isDir`,
`(buf + fileCount)->filename = String(entry.name())`, `fileCount++`.  A store
at an index the buffer does not have leaves the buffer as it is and is
recorded in `outside`. -/
def storeEntry (st : Listing) (entry : File) (isDir : Bool) : Listing :=
  { st with
    buf := if st.fileCount < st.buf.length then st.buf.set st.fileCount ⟨entry.name, isDir⟩
      else st.buf
    fileCount := (st.fileCount + 1) % 256
    outside := if st.fileCount < st.buf.length then st.outside
      else st.outside ++ [st.fileCount] }

/-- The `while (true)` loop of `initDirBuffer` for pass `i` over the entries
still to come.  Pass 0 (`i < 1`) collects what `isDirectoryHideSys` accepts
and counts it in `dirCount`; the other pass collects what
`isSupportedFormat(entry)` accepts, a test of the name alone. -/
def initDirBufferPass (i : Nat) : List File → Listing → Listing
  | [], st => st
  | entry :: rest, st =>
    if i < 1 then
      if isDirectoryHideSys entry then
        initDirBufferPass i rest
          (storeEntry { st with dirCount := (st.dirCount + 1) % 256 } entry true)
      else initDirBufferPass i rest st
    else
      if isSupportedFormat entry.name then
        initDirBufferPass i rest (storeEntry st entry false)
      else initDirBufferPass i rest st

/-- The function `initDirBuffer`: clear the buffer, run the two passes, store
the counters in the level.  Result: the level, the buffer, and the indices of
the stores outside the buffer. -/
def initDirBuffer (file : List File) (dir : Dir) (buf : List Buffer) :
    Dir × List Buffer × List Nat :=
  let st0 : Listing := ⟨clearBuffer buf N_BUF, 0, 0, []⟩
  let st1 := initDirBufferPass 0 file st0
  let st2 := initDirBufferPass 1 file st1
  ({ dir with dirCount := st2.dirCount, totalFileCount := st2.fileCount }, st2.buf,
    st2.outside)

/-- A listing buffer of `N_BUF` cleared entries. -/
def emptyBuffer : List Buffer := List.replicate N_BUF ⟨[], false⟩

/-! ## Directory navigator: the cursor of `select`

`select` keeps the selected entry in `selectNum` and the highlighted screen
row in `position`; the window on screen is whatever the last call of
`printDirectory(buf, pos)` drew, so the model keeps that `pos`. -/

/-- The enumeration `enum Button`. -/
inductive Button where
  | prev
  | next
  | play
  | back
deriving DecidableEq, Repr

/-- The cursor of `select`: `uint8_t selectNum`, `int8_t position`, and the
`uint8_t pos` argument of the last `printDirectory` call. -/
structure Cursor where
  selectNum : Nat
  position : Int
  drawn : Nat
deriving DecidableEq, Repr

/-- The start of the outer loop of `select`, after `initDirBuffer` has set
`totalFileCount`: the three-way choice of the window to draw and of the row
to highlight for the stored selection. -/
def selectEntry (dir : Dir) : Cursor :=
  let selectNum : Nat := dir.numSelectFile % 256
  let total : Int := (dir.totalFileCount : Int)
  if 0 ≤ selectNum ∧ selectNum ≤ 2 then
    ⟨selectNum, toInt8 (selectNum : Int), 0⟩
  else if (selectNum : Int) ≤ total - 1 ∧ (selectNum : Int) ≥ total - 3 then
    ⟨selectNum, toInt8 (4 - ((total - 1) - (selectNum : Int))), toUInt8 (total - 5)⟩
  else
    ⟨selectNum, 2, toUInt8 ((selectNum : Int) - 2)⟩

/-- One pass of the inner loop of `select` for the button `filenameScroll`
returned.  `prev` and `next` move the cursor; `play` and `back` do not touch
`selectNum` or `position` (they leave the loop, or do nothing at the root). -/
def selectPress (dir : Dir) (c : Cursor) (push : Button) : Cursor :=
  let total : Int := (dir.totalFileCount : Int)
  match push with
  | .prev =>
    if dir.totalFileCount ≠ 1 then
      if c.position > 0 then
        { c with position := toInt8 (c.position - 1),
                 selectNum := toUInt8 ((c.selectNum : Int) - 1) }
      else if c.selectNum ≤ 0 then
        let selectNum := toUInt8 (total - 1)
        if dir.totalFileCount < 5 then
          { c with selectNum := selectNum, position := toInt8 (total - 1) }
        else
          ⟨selectNum, 4, toUInt8 ((selectNum : Int) - 4)⟩
      else
        { c with drawn := toUInt8 ((c.selectNum : Int) - 1),
                 selectNum := toUInt8 ((c.selectNum : Int) - 1) }
    else c
  | .next =>
    if dir.totalFileCount ≠ 1 then
      if c.position < 4 then
        if (c.selectNum : Int) ≥ total - 1 then
          { c with selectNum := 0, position := 0 }
        else
          { c with position := toInt8 (c.position + 1),
                   selectNum := toUInt8 ((c.selectNum : Int) + 1) }
      else
        if (c.selectNum : Int) ≥ total - 1 then
          ⟨0, 0, 0⟩
        else
          { c with drawn := toUInt8 ((c.selectNum : Int) - 3),
                   selectNum := toUInt8 ((c.selectNum : Int) + 1) }
    else c
  | .play => c
  | .back => c

/-- The cursor after a sequence of button presses in a directory that was
just entered. -/
def selectRun (dir : Dir) (presses : List Button) : Cursor :=
  presses.foldl (selectPress dir) (selectEntry dir)

/-- The `for` loop of `printDirectory`: the first argument is the number of
rows still to draw, `pos` is the `uint8_t` index of the entry drawn next.
Each pass draws `buf[pos]`, increments `pos`, and stops early when
`buf[pos].filename` is empty.  Result: the entries drawn, top row first. -/
def printDirectoryLoop (buf : List Buffer) : Nat → Nat → List Buffer →
    Except Fault (List Buffer)
  | 0, _, rows => .ok rows
  | k + 1, pos, rows =>
    match buf[pos]? with
    | none => .error (.bufferOutOfBounds pos)
    | some e =>
      let pos1 := (pos + 1) % 256
      match buf[pos1]? with
      | none => .error (.bufferOutOfBounds pos1)
      | some following =>
        if following.filename = [] then .ok (rows ++ [e])
        else printDirectoryLoop buf k pos1 (rows ++ [e])

/-- The function `printDirectory(buf, pos)`: at most five rows. -/
def printDirectory (buf : List Buffer) (pos : Nat) : Except Fault (List Buffer) :=
  printDirectoryLoop buf 5 (pos % 256) []

/-- The cursor is consistent with the screen: the selection is an entry of
the listing, the highlighted row is one of the five screen rows and equals
the selection minus the window offset drawn, and the window starts no later
than the final edge `max(total - 5, 0)`. -/
def CursorOk (dir : Dir) (c : Cursor) : Prop :=
  c.selectNum < dir.totalFileCount ∧
    c.position = (c.selectNum : Int) - (c.drawn : Int) ∧
    0 ≤ c.position ∧ c.position ≤ 4 ∧
    c.drawn ≤ dir.totalFileCount - 5

/-- The value `x` forced into the range from `lo` to `hi`. -/
def clamp (x lo hi : Int) : Int :=
  if x < lo then lo else if hi < x then hi else x

/-- A listing buffer with four tracks `a.mp3`, `b.mp3`, `c.mp3`, `d.mp3` and
46 cleared entries. -/
def fourTracks : List Buffer :=
  [⟨['a', '.', 'm', 'p', '3'], false⟩, ⟨['b', '.', 'm', 'p', '3'], false⟩,
    ⟨['c', '.', 'm', 'p', '3'], false⟩, ⟨['d', '.', 'm', 'p', '3'], false⟩] ++
    List.replicate 46 ⟨[], false⟩

/-! ## Button debouncer: `pushButton`

One call of `pushButton` is one poll of a channel.  The poll reads the pin
(`digitalRead`) and the clock (`millis`); both readings are inputs of the
model, and the calls of `millis` made within one poll return the same
value. -/

/-- The enumeration `enum Btn_Status`. -/
inductive Btn_Status where
  | Release
  | ON_start
  | momentPress_determined
  | longPress_determined
  | continuous_press
deriving DecidableEq, Repr

/-- The value `digitalRead(gpio)` returns. -/
inductive PinLevel where
  | LOW
  | HIGH
deriving DecidableEq, Repr

/-- The state of one channel: the pair of globals `*_status` and
`startTime_*` that the caller passes by pointer. -/
structure Channel where
  button_status : Btn_Status
  start_time : Nat
deriving DecidableEq, Repr

/-- The function `timeMeasure` when `millis()` returns `now`:
`millis() - st_time` in `uint32_t` arithmetic. -/
def timeMeasure (now st_time : Nat) : Nat :=
  (now % 2 ^ 32 + 2 ^ 32 - st_time % 2 ^ 32) % 2 ^ 32

/-- The function `pushButton`: the value returned and the channel after the
poll. -/
def pushButton (pin : PinLevel) (now : Nat) (ch : Channel) (continuous_set : Bool)
    (chatter_time long_press_time : Nat) : Btn_Status × Channel :=
  match pin with
  | .LOW =>
    match ch.button_status with
    | .Release => (.Release, ⟨.ON_start, now % 2 ^ 32⟩)
    | .ON_start =>
      if continuous_set then
        if timeMeasure now ch.start_time > long_press_time then
          (.Release, { ch with button_status := .continuous_press })
        else (.Release, ch)
      else
        if timeMeasure now ch.start_time > long_press_time then
          (.longPress_determined, { ch with button_status := .longPress_determined })
        else (.Release, ch)
    | .continuous_press =>
      if timeMeasure now ch.start_time > long_press_time then
        (.continuous_press, { ch with start_time := now % 2 ^ 32 })
      else (.Release, ch)
    | _ => (.Release, ch)
  | .HIGH =>
    let ret_state :=
      if ch.button_status = .ON_start ∧ timeMeasure now ch.start_time > chatter_time then
        Btn_Status.momentPress_determined
      else Btn_Status.Release
    (ret_state, { ch with button_status := .Release })

/-- A run of polls of one channel with fixed settings: each poll is the pin
level and the clock value read.  Result: the values returned, in order, and
the channel after the last poll. -/
def pollAll (continuous_set : Bool) (chatter_time long_press_time : Nat) :
    Channel → List (PinLevel × Nat) → List Btn_Status × Channel
  | ch, [] => ([], ch)
  | ch, p :: ps =>
    let r := pushButton p.1 p.2 ch continuous_set chatter_time long_press_time
    let rest := pollAll continuous_set chatter_time long_press_time r.2 ps
    (r.1 :: rest.1, rest.2)

/-- The polls of a hold: the pin is read low at each of the given times. -/
def lowPolls (times : List Nat) : List (PinLevel × Nat) :=
  times.map (fun t => (PinLevel.LOW, t))

/-! ## Playback controller: the mode cycle of `mp3Playback` -/

/-- The enumeration `enum Mode`. -/
inductive Mode where
  | normal
  | repeat
  | shuffle
deriving DecidableEq, Repr

/-- What the mode switch of `mp3Playback` works on: `status.mode` and the
order array `subscript`. -/
structure Playback where
  mode : Mode
  subscript : List Nat
deriving DecidableEq, Repr

/-- The block `if (back_state == continuous_press) { switch (status.mode) ...
}` of `mp3Playback`: `normal` goes to `shuffle` and shuffles the order,
`shuffle` goes to `repeat`, `repeat` goes to `normal` and rebuilds the
identity order. -/
def modeSwitch (dir : Dir) (rand : Nat → Nat) (st : Playback) : Playback :=
  match st.mode with
  | .normal => ⟨.shuffle, shuffleIndex dir st.subscript rand⟩
  | .shuffle => { st with mode := .repeat }
  | .repeat => ⟨.normal, makeIndex dir⟩

/-- The reaction of `mp3Playback` to the value the poll of the back button
returned: `momentPress_determined` stops playback and leaves the loop
(`none`), `continuous_press` switches the mode, any other value changes
nothing. -/
def backButton (back_state : Btn_Status) (dir : Dir) (rand : Nat → Nat)
    (st : Playback) : Option Playback :=
  if back_state = .momentPress_determined then none
  else if back_state = .continuous_press then some (modeSwitch dir rand st)
  else some st

/-- The cycle `normal -> shuffle -> repeat -> normal`. -/
def nextMode : Mode → Mode
  | .normal => .shuffle
  | .shuffle => .repeat
  | .repeat => .normal

end ESP32Player

namespace ESP32Player

/-! ## Shuffle is a bijection with a fixed anchor -/

theorem swap_length (sub : List Nat) (i j : Nat) :
    (swap sub i j).length = sub.length := by
  simp [swap]

theorem swap_perm (sub : List Nat) (i j : Nat) (hi : i < sub.length)
    (hj : j < sub.length) : (swap sub i j).Perm sub := by
  rw [List.perm_iff_count]
  intro v
  have key : swap sub i j = (sub.set i sub[j]).set j sub[i] := by
    simp [swap, List.getD_eq_getElem?_getD, List.getElem?_eq_getElem hi,
      List.getElem?_eq_getElem hj]
  have hj2 : j < (sub.set i sub[j]).length := by simpa using hj
  rw [key, List.count_set _ _ _ _ hj2, List.count_set _ _ _ _ hi]
  have hci : (if sub[i] == v then 1 else 0) ≤ sub.count v := by
    split
    · rename_i h
      have : sub[i] = v := by simpa using h
      have hm : v ∈ sub := this ▸ List.getElem_mem hi
      exact List.count_pos_iff.mpr hm
    · omega
  have hcj : (if sub[j] == v then 1 else 0) ≤ sub.count v := by
    split
    · rename_i h
      have : sub[j] = v := by simpa using h
      have hm : v ∈ sub := this ▸ List.getElem_mem hj
      exact List.count_pos_iff.mpr hm
    · omega
  by_cases hij : i = j
  · subst hij
    simp only [List.getElem_set_self]
    omega
  · rw [List.getElem_set_ne hij]
    omega

theorem swap_getElem_ne (sub : List Nat) (i j a : Nat) (hi : i ≠ a) (hj : j ≠ a) :
    (swap sub i j)[a]? = sub[a]? := by
  unfold swap
  simp only []
  rw [List.getElem?_set_ne hj, List.getElem?_set_ne hi]

theorem shuffleIndexLoop_inv (a : Nat) (rand : Nat → Nat) :
    ∀ (i c : Nat) (sub : List Nat), i ≤ sub.length → sub.length ≤ 256 →
      (∀ k, rand k < sub.length) →
      (shuffleIndexLoop a rand i c sub).Perm sub ∧
        (shuffleIndexLoop a rand i c sub)[a]? = sub[a]? := by
  intro i
  induction i with
  | zero =>
    intro c sub _ _ _
    exact ⟨List.Perm.refl _, rfl⟩
  | succ i ih =>
    intro c sub hi hlen hr
    have hj : rand c % 256 = rand c := Nat.mod_eq_of_lt (lt_of_lt_of_le (hr c) hlen)
    simp only [shuffleIndexLoop, hj]
    split
    · rename_i hcond
      obtain ⟨_, hia, hja⟩ := hcond
      have hl : (swap sub i (rand c)).length = sub.length := swap_length _ _ _
      have h := ih (c + 1) (swap sub i (rand c)) (by omega) (by omega)
        (fun k => by rw [hl]; exact hr k)
      refine ⟨h.1.trans (swap_perm sub i (rand c) (by omega) (hr c)), ?_⟩
      rw [h.2, swap_getElem_ne sub i (rand c) a hia hja]
    · exact ih (c + 1) sub (by omega) hlen hr

/-- Claim C1.  For every entry count `n ≤ 50`, every anchor `a < n` (the
level's `numSelectFile`) and every sequence of random draws in `[0,n)`,
`makeIndex` followed by `shuffleIndex` leaves `subscript` a permutation of
`[0,n)`: each value below `n` occurs exactly once, and the anchor's slot is
unchanged, `subscript[a] = a`. -/
theorem shuffle_permutation_anchor_fixed (dir : Dir) (rand : Nat → Nat)
    (hn : dir.totalFileCount ≤ 50)
    (ha : dir.numSelectFile < dir.totalFileCount)
    (hr : ∀ c, rand c < dir.totalFileCount) :
    (shuffleIndex dir (makeIndex dir) rand).Perm (List.range dir.totalFileCount) ∧
      (shuffleIndex dir (makeIndex dir) rand).length = dir.totalFileCount ∧
      (∀ v, v < dir.totalFileCount →
        (shuffleIndex dir (makeIndex dir) rand).count v = 1) ∧
      (shuffleIndex dir (makeIndex dir) rand)[dir.numSelectFile]? =
        some dir.numSelectFile := by
  have hmk : makeIndex dir = List.range dir.totalFileCount := by
    unfold makeIndex
    rw [Nat.mod_eq_of_lt (by omega)]
  have hcnt : ((toInt8 (toInt8 (dir.totalFileCount : Int) - 1)) + 1).toNat
      = dir.totalFileCount := by
    unfold toInt8
    omega
  have hinv := shuffleIndexLoop_inv dir.numSelectFile rand dir.totalFileCount 0
    (List.range dir.totalFileCount) (by simp) (by simp; omega) (by simpa using hr)
  have hsh : shuffleIndex dir (makeIndex dir) rand =
      shuffleIndexLoop dir.numSelectFile rand dir.totalFileCount 0
        (List.range dir.totalFileCount) := by
    unfold shuffleIndex
    simp only [hcnt, hmk]
  rw [hsh]
  refine ⟨hinv.1, ?_, ?_, ?_⟩
  · simpa using hinv.1.length_eq
  · intro v hv
    rw [hinv.1.count_eq]
    exact List.count_eq_one_of_mem (List.nodup_range _) (List.mem_range.mpr hv)
  · rw [hinv.2]
    simp [List.getElem?_range ha]

/-- Witness for `shuffle_permutation_anchor_fixed`: five entries, anchor 2,
draws `3, 0, 2, 4, 1`. -/
theorem shuffle_permutation_anchor_fixed_witness :
    (shuffleIndex ⟨['/'], 2, 5, 0⟩ (makeIndex ⟨['/'], 2, 5, 0⟩)
        (fun c => (3 + 2 * c) % 5)).Perm (List.range 5) ∧
      (shuffleIndex ⟨['/'], 2, 5, 0⟩ (makeIndex ⟨['/'], 2, 5, 0⟩)
        (fun c => (3 + 2 * c) % 5))[2]? = some 2 :=
  have h := shuffle_permutation_anchor_fixed ⟨['/'], 2, 5, 0⟩ (fun c => (3 + 2 * c) % 5)
    (by decide) (by decide) (fun c => Nat.mod_lt _ (by decide))
  ⟨h.1, h.2.2.2⟩

/-- A run of the shuffle by hand: five entries, anchor 2, draws `3, 0, 2, 4, 1`. -/
theorem shuffleIndex_example :
    shuffleIndex ⟨['/'], 2, 5, 0⟩ (makeIndex ⟨['/'], 2, 5, 0⟩)
      (fun c => (3 + 2 * c) % 5) = [3, 4, 2, 0, 1] := by decide

/-! ## Next and previous track -/

theorem mp3_suffix_slash (pre f : List Char) :
    ['.', 'm', 'p', '3'] <:+ (pre ++ '/' :: f) ↔ ['.', 'm', 'p', '3'] <:+ f := by
  have h2 : f <:+ (pre ++ '/' :: f) := by
    have : pre ++ '/' :: f = (pre ++ ['/']) ++ f := by simp
    rw [this]
    exact List.suffix_append _ _
  constructor
  · intro h
    by_cases hl : 4 ≤ f.length
    · exact List.suffix_of_suffix_length_le h h2 (by simpa using hl)
    · exfalso
      rw [← List.reverse_prefix] at h
      simp only [List.reverse_append, List.reverse_cons] at h
      rcases f with _ | ⟨a, _ | ⟨b, _ | ⟨c, _ | ⟨d, f⟩⟩⟩⟩
      · simp [List.cons_prefix_cons] at h
      · simp [List.cons_prefix_cons] at h
      · simp [List.cons_prefix_cons] at h
      · simp [List.cons_prefix_cons] at h
      · simp at hl
  · intro h
    exact h.trans h2

/-- The format test on the song path is the format test on the file name:
the path is the name behind a slash. -/
theorem isSupportedFormat_songPathOf (dir : Dir) (f : List Char) :
    isSupportedFormat (songPathOf dir f) = isSupportedFormat f := by
  have key : ∀ pre : List Char, isSupportedFormat (pre ++ '/' :: f) = isSupportedFormat f := by
    intro pre
    unfold isSupportedFormat endsWith
    rw [Bool.eq_iff_iff, List.isSuffixOf_iff_suffix, List.isSuffixOf_iff_suffix]
    exact mp3_suffix_slash pre f
  unfold songPathOf
  split
  · exact key []
  · exact key dir.path

theorem entryAt_eq_some (buffer : List Buffer) (subscript : List Nat) (p : Nat)
    (e : Buffer) (h : entryAt buffer subscript p = some e) :
    ∃ idx, subscript[p]? = some idx ∧ buffer[idx]? = some e := by
  unfold entryAt at h
  split at h
  · rename_i idx hidx
    exact ⟨idx, hidx, h⟩
  · simp at h

/-- Every position of a play order that is a permutation of `[0,total)`
names an entry of the listing. -/
theorem entryAt_of_perm (buffer : List Buffer) (subscript : List Nat) (total p : Nat)
    (hperm : subscript.Perm (List.range total)) (hbuf : total ≤ buffer.length)
    (hp : p < total) : ∃ e, entryAt buffer subscript p = some e := by
  have hlen : subscript.length = total := by simpa using hperm.length_eq
  have hp2 : p < subscript.length := by omega
  have hmem : subscript[p] ∈ List.range total := hperm.subset (List.getElem_mem hp2)
  have hlt : subscript[p] < buffer.length := by
    have := List.mem_range.mp hmem
    omega
  refine ⟨buffer[subscript[p]], ?_⟩
  unfold entryAt
  rw [List.getElem?_eq_getElem hp2]
  exact List.getElem?_eq_getElem hlt

theorem readSubscript_natCast (subscript : List Nat) (p idx : Nat)
    (h : subscript[p]? = some idx) : readSubscript subscript (p : Int) = .ok idx := by
  unfold readSubscript
  simp [h]

theorem toUInt8_natCast (n : Nat) (h : n < 256) : toUInt8 (n : Int) = n := by
  unfold toUInt8
  omega

theorem toInt8_natCast (n : Nat) (h : n < 128) : toInt8 (n : Int) = n := by
  unfold toInt8
  omega

/-- One advance of `getNextPath` from position `k`: the loop looks at the
cyclic successor of `k`. -/
theorem getNextPathLoop_step (buffer : List Buffer) (subscript : List Nat)
    (fuel : Nat) (dir : Dir) (k : Nat) (e : Buffer)
    (hk : k < dir.totalFileCount) (h128 : dir.totalFileCount ≤ 128)
    (he : entryAt buffer subscript ((k + 1) % dir.totalFileCount) = some e) :
    getNextPathLoop buffer subscript (fuel + 1) dir (k : Int) =
      if playable e then
        .ok (songPathOf dir e.filename,
          { dir with numSelectFile := (k + 1) % dir.totalFileCount })
      else if e.isDir then
        getNextPathLoop buffer subscript fuel dir (((k + 1) % dir.totalFileCount : Nat) : Int)
      else
        getNextPathLoop buffer subscript fuel
          { dir with numSelectFile := (k + 1) % dir.totalFileCount }
          (((k + 1) % dir.totalFileCount : Nat) : Int) := by
  obtain ⟨idx, hidx, hbuf⟩ := entryAt_eq_some _ _ _ _ he
  have hsel : (if (k : Int) ≥ (dir.totalFileCount : Int) - 1 then (0 : Int)
      else toInt8 ((k : Int) + 1)) = (((k + 1) % dir.totalFileCount : Nat) : Int) := by
    by_cases hlast : k + 1 = dir.totalFileCount
    · rw [if_pos (by omega), hlast, Nat.mod_self]
      rfl
    · rw [if_neg (by omega), Nat.mod_eq_of_lt (by omega)]
      unfold toInt8
      omega
  have hq : (k + 1) % dir.totalFileCount < 256 :=
    lt_of_lt_of_le (Nat.mod_lt _ (by omega)) (by omega)
  rw [getNextPathLoop]
  simp only [hsel, readSubscript_natCast _ _ _ hidx, hbuf, toUInt8_natCast _ hq,
    isSupportedFormat_songPathOf, playable]
  by_cases h1 : e.isDir = true <;> by_cases h2 : isSupportedFormat e.filename = true <;>
    simp [h1, h2]

/-- One retreat of `getPrevPath` from a position `k ≥ 1`: the loop looks at
position `k - 1`. -/
theorem getPrevPathLoop_step (buffer : List Buffer) (subscript : List Nat)
    (fuel : Nat) (dir : Dir) (k : Nat) (e : Buffer)
    (hk : 1 ≤ k) (h128 : k ≤ 128)
    (he : entryAt buffer subscript (k - 1) = some e) :
    getPrevPathLoop buffer subscript (fuel + 1) dir (k : Int) =
      if playable e then
        .ok (songPathOf dir e.filename, { dir with numSelectFile := k - 1 })
      else if e.isDir then
        getPrevPathLoop buffer subscript fuel dir ((k - 1 : Nat) : Int)
      else
        getPrevPathLoop buffer subscript fuel { dir with numSelectFile := k - 1 }
          ((k - 1 : Nat) : Int) := by
  obtain ⟨idx, hidx, hbuf⟩ := entryAt_eq_some _ _ _ _ he
  have hsel : (if (k : Int) < 0 then toInt8 ((dir.totalFileCount : Int) - 1)
      else toInt8 ((k : Int) - 1)) = ((k - 1 : Nat) : Int) := by
    rw [if_neg (by omega)]
    unfold toInt8
    omega
  have hq : k - 1 < 256 := by omega
  rw [getPrevPathLoop]
  simp only [hsel, readSubscript_natCast _ _ _ hidx, hbuf, toUInt8_natCast _ hq,
    isSupportedFormat_songPathOf, playable]
  by_cases h1 : e.isDir = true <;> by_cases h2 : isSupportedFormat e.filename = true <;>
    simp [h1, h2]

/-- The forward loop stops at the first playable position in cyclic order
after `k`, whatever lies in between (directories or unsupported files). -/
theorem getNextPathLoop_reach (buffer : List Buffer) (subscript : List Nat) (e : Buffer) :
    ∀ (d fuel k : Nat) (dir : Dir), k < dir.totalFileCount → dir.totalFileCount ≤ 128 →
      1 ≤ d → d ≤ fuel →
      (∀ j, 1 ≤ j → j < d → ∃ x,
        entryAt buffer subscript ((k + j) % dir.totalFileCount) = some x ∧
          playable x = false) →
      entryAt buffer subscript ((k + d) % dir.totalFileCount) = some e →
      playable e = true →
      getNextPathLoop buffer subscript fuel dir (k : Int) =
        .ok (songPathOf dir e.filename,
          { dir with numSelectFile := (k + d) % dir.totalFileCount }) := by
  intro d
  induction d with
  | zero => intro fuel k dir _ _ h; omega
  | succ d ih =>
    intro fuel k dir hk h128 _ hfuel hskip hlast hplay
    obtain ⟨fuel, rfl⟩ : ∃ f, fuel = f + 1 := ⟨fuel - 1, by omega⟩
    have hpos : 0 < dir.totalFileCount := by omega
    have hk1 : (k + 1) % dir.totalFileCount < dir.totalFileCount := Nat.mod_lt _ hpos
    have hshift : ∀ j, ((k + 1) % dir.totalFileCount + j) % dir.totalFileCount =
        (k + (j + 1)) % dir.totalFileCount := by
      intro j
      rw [Nat.add_mod, Nat.mod_mod, ← Nat.add_mod]
      congr 1
      omega
    by_cases hd : d = 0
    · subst hd
      rw [getNextPathLoop_step buffer subscript fuel dir k e hk h128 hlast, if_pos hplay]
    · obtain ⟨x, hx, hxp⟩ := hskip 1 (le_refl _) (by omega)
      rw [getNextPathLoop_step buffer subscript fuel dir k x hk h128 hx, hxp]
      have hskip2 : ∀ j, 1 ≤ j → j < d → ∃ y,
          entryAt buffer subscript (((k + 1) % dir.totalFileCount + j) % dir.totalFileCount)
            = some y ∧ playable y = false := by
        intro j hj1 hj2
        rw [hshift j]
        exact hskip (j + 1) (by omega) (by omega)
      have hlast2 : entryAt buffer subscript
          (((k + 1) % dir.totalFileCount + d) % dir.totalFileCount) = some e := by
        rw [hshift d]
        exact hlast
      simp only [Bool.false_eq_true, if_false]
      split
      · rw [ih fuel ((k + 1) % dir.totalFileCount) dir hk1 h128 (by omega) (by omega)
          hskip2 hlast2 hplay, hshift d]
      · have h := ih fuel ((k + 1) % dir.totalFileCount)
          { dir with numSelectFile := (k + 1) % dir.totalFileCount } hk1 h128 (by omega)
          (by omega) hskip2 hlast2 hplay
        rw [h, hshift d]
        rfl

/-- The backward loop stops at the first playable position below `k`, as long
as there is one. -/
theorem getPrevPathLoop_reach (buffer : List Buffer) (subscript : List Nat) (e : Buffer) :
    ∀ (d fuel k : Nat) (dir : Dir), k ≤ 128 → 1 ≤ d → d ≤ k → d ≤ fuel →
      (∀ j, 1 ≤ j → j < d → ∃ x,
        entryAt buffer subscript (k - j) = some x ∧ playable x = false) →
      entryAt buffer subscript (k - d) = some e →
      playable e = true →
      getPrevPathLoop buffer subscript fuel dir (k : Int) =
        .ok (songPathOf dir e.filename, { dir with numSelectFile := k - d }) := by
  intro d
  induction d with
  | zero => intro fuel k dir _ h; omega
  | succ d ih =>
    intro fuel k dir h128 _ hdk hfuel hskip hlast hplay
    obtain ⟨fuel, rfl⟩ : ∃ f, fuel = f + 1 := ⟨fuel - 1, by omega⟩
    have hshift : ∀ j, k - 1 - j = k - (j + 1) := by
      intro j
      omega
    by_cases hd : d = 0
    · subst hd
      rw [getPrevPathLoop_step buffer subscript fuel dir k e (by omega) h128 hlast,
        if_pos hplay]
    · obtain ⟨x, hx, hxp⟩ := hskip 1 (le_refl _) (by omega)
      rw [getPrevPathLoop_step buffer subscript fuel dir k x (by omega) h128 hx, hxp]
      have hskip2 : ∀ j, 1 ≤ j → j < d → ∃ y,
          entryAt buffer subscript (k - 1 - j) = some y ∧ playable y = false := by
        intro j hj1 hj2
        rw [hshift j]
        exact hskip (j + 1) (by omega) (by omega)
      have hlast2 : entryAt buffer subscript (k - 1 - d) = some e := by
        rw [hshift d]
        exact hlast
      simp only [Bool.false_eq_true, if_false]
      split
      · rw [ih fuel (k - 1) dir (by omega) (by omega) (by omega) (by omega)
          hskip2 hlast2 hplay, hshift d]
      · have h := ih fuel (k - 1) { dir with numSelectFile := k - 1 } (by omega)
          (by omega) (by omega) (by omega) hskip2 hlast2 hplay
        rw [h, hshift d]
        rfl

theorem subscript_lt_of_perm (subscript : List Nat) (total p idx : Nat)
    (hperm : subscript.Perm (List.range total)) (h : subscript[p]? = some idx) :
    idx < total := by
  have hmem : idx ∈ subscript := List.getElem?_mem h
  exact List.mem_range.mp (hperm.subset hmem)

/-- Claim C3.  In a listing of `1 ≤ total ≤ 50` entries with at least one
playable entry, in which every non-directory entry is playable, and with a
play order that is a permutation of `[0,total)`, `getNextPath` started at a
selection `s < total` returns after `d ≤ total` advances: it sets
`numSelectFile` to `(s + d) mod total`, the first position in cyclic order
strictly after `s` whose entry is not a directory (all positions passed on
the way hold directories), and the returned path names that entry. -/
theorem getNextPath_first_non_directory (dir : Dir) (buffer : List Buffer)
    (subscript : List Nat)
    (h1 : 1 ≤ dir.totalFileCount) (h50 : dir.totalFileCount ≤ 50)
    (hbuf : dir.totalFileCount ≤ buffer.length)
    (hperm : subscript.Perm (List.range dir.totalFileCount))
    (hs : dir.numSelectFile < dir.totalFileCount)
    (hplay : ∃ i e, i < dir.totalFileCount ∧ buffer[i]? = some e ∧ playable e = true)
    (hall : ∀ i e, i < dir.totalFileCount → buffer[i]? = some e → e.isDir = false →
      isSupportedFormat e.filename = true) :
    ∃ d e, 1 ≤ d ∧ d ≤ dir.totalFileCount ∧
      entryAt buffer subscript ((dir.numSelectFile + d) % dir.totalFileCount) = some e ∧
      e.isDir = false ∧
      (∀ j, 1 ≤ j → j < d → ∃ x,
        entryAt buffer subscript ((dir.numSelectFile + j) % dir.totalFileCount) = some x ∧
          x.isDir = true) ∧
      ∀ fuel, d ≤ fuel →
        getNextPath fuel dir buffer subscript =
          .ok (songPathOf dir e.filename,
            { dir with numSelectFile := (dir.numSelectFile + d) % dir.totalFileCount }) := by
  classical
  obtain ⟨i, e0, hi, hbi, hpe0⟩ := hplay
  have hlen : subscript.length = dir.totalFileCount := by simpa using hperm.length_eq
  -- a position that shows the playable entry
  have hmem : i ∈ subscript := hperm.symm.subset (List.mem_range.mpr hi)
  obtain ⟨p, hp⟩ := List.getElem?_of_mem hmem
  have hpl : p < dir.totalFileCount := by
    have := (List.getElem?_eq_some_iff.mp hp).1
    omega
  have hep : entryAt buffer subscript p = some e0 := by
    unfold entryAt
    rw [hp]
    exact hbi
  -- some cyclic distance reaches a playable entry
  have hex : ∃ d, 1 ≤ d ∧ d ≤ dir.totalFileCount ∧ ∃ e,
      entryAt buffer subscript ((dir.numSelectFile + d) % dir.totalFileCount) = some e ∧
        playable e = true := by
    by_cases hlt : dir.numSelectFile < p
    · refine ⟨p - dir.numSelectFile, by omega, by omega, e0, ?_, hpe0⟩
      have : dir.numSelectFile + (p - dir.numSelectFile) = p := by omega
      rw [this, Nat.mod_eq_of_lt hpl]
      exact hep
    · refine ⟨p + dir.totalFileCount - dir.numSelectFile, by omega, by omega, e0, ?_, hpe0⟩
      have : dir.numSelectFile + (p + dir.totalFileCount - dir.numSelectFile) =
          p + dir.totalFileCount := by omega
      rw [this, Nat.add_mod_right, Nat.mod_eq_of_lt hpl]
      exact hep
  have hd := Nat.find_spec hex
  have hmin := fun j (hj : j < Nat.find hex) => Nat.find_min hex hj
  generalize Nat.find hex = d at hd hmin
  obtain ⟨hd1, hdle, e, hed, hpe⟩ := hd
  have hskip : ∀ j, 1 ≤ j → j < d → ∃ x,
      entryAt buffer subscript ((dir.numSelectFile + j) % dir.totalFileCount) = some x ∧
        playable x = false := by
    intro j hj1 hj2
    obtain ⟨x, hx⟩ := entryAt_of_perm buffer subscript dir.totalFileCount
      ((dir.numSelectFile + j) % dir.totalFileCount) hperm hbuf (Nat.mod_lt _ (by omega))
    refine ⟨x, hx, ?_⟩
    by_contra hne
    have hxp : playable x = true := by simpa using hne
    exact hmin j hj2 ⟨hj1, by omega, x, hx, hxp⟩
  have hdirOf : ∀ pos x, entryAt buffer subscript pos = some x → playable x = false →
      x.isDir = true := by
    intro pos x hx hxp
    obtain ⟨idx, hidx, hb⟩ := entryAt_eq_some _ _ _ _ hx
    have hidxlt := subscript_lt_of_perm subscript dir.totalFileCount pos idx hperm hidx
    by_contra hnd
    have hnd2 : x.isDir = false := by simpa using hnd
    have := hall idx x hidxlt hb hnd2
    simp [playable, hnd2, this] at hxp
  refine ⟨d, e, hd1, hdle, hed, ?_, ?_, ?_⟩
  · simp only [playable, Bool.and_eq_true, Bool.not_eq_true'] at hpe
    exact hpe.1
  · intro j hj1 hj2
    obtain ⟨x, hx, hxp⟩ := hskip j hj1 hj2
    exact ⟨x, hx, hdirOf _ x hx hxp⟩
  · intro fuel hfuel
    unfold getNextPath
    rw [toInt8_natCast _ (by omega)]
    exact getNextPathLoop_reach buffer subscript e d fuel dir.numSelectFile dir hs
      (by omega) hd1 hfuel hskip hed hpe

/-- Witness for `getNextPath_first_non_directory`: a directory and two
tracks in the folder `/m`, play order `2, 0, 1`, selection at position 0
(track `b.mp3`). -/
theorem getNextPath_first_non_directory_witness :
    ∃ d e, 1 ≤ d ∧ d ≤ 3 ∧
      entryAt [⟨['d'], true⟩, ⟨['a', '.', 'm', 'p', '3'], false⟩,
        ⟨['b', '.', 'm', 'p', '3'], false⟩] [2, 0, 1] ((0 + d) % 3) = some e ∧
      e.isDir = false ∧
      (∀ j, 1 ≤ j → j < d → ∃ x,
        entryAt [⟨['d'], true⟩, ⟨['a', '.', 'm', 'p', '3'], false⟩,
          ⟨['b', '.', 'm', 'p', '3'], false⟩] [2, 0, 1] ((0 + j) % 3) = some x ∧
          x.isDir = true) ∧
      ∀ fuel, d ≤ fuel →
        getNextPath fuel ⟨['/', 'm'], 0, 3, 1⟩
          [⟨['d'], true⟩, ⟨['a', '.', 'm', 'p', '3'], false⟩,
            ⟨['b', '.', 'm', 'p', '3'], false⟩] [2, 0, 1] =
          .ok (songPathOf ⟨['/', 'm'], 0, 3, 1⟩ e.filename,
            { (⟨['/', 'm'], 0, 3, 1⟩ : Dir) with numSelectFile := (0 + d) % 3 }) :=
  getNextPath_first_non_directory ⟨['/', 'm'], 0, 3, 1⟩
    [⟨['d'], true⟩, ⟨['a', '.', 'm', 'p', '3'], false⟩, ⟨['b', '.', 'm', 'p', '3'], false⟩]
    [2, 0, 1] (by decide) (by decide) (by decide) (by decide) (by decide)
    ⟨1, ⟨['a', '.', 'm', 'p', '3'], false⟩, by decide, by decide, by decide⟩
    (by
      intro i e hi hb hd
      have hi3 : i < 3 := hi
      interval_cases i <;> simp at hb <;> subst hb <;> first | decide | simp at hd)

/-- The run of the witness by hand: from position 0 the loop passes the
directory at position 1 and stops at position 2, the track `a.mp3`. -/
theorem getNextPath_example :
    getNextPath 3 ⟨['/', 'm'], 0, 3, 1⟩
      [⟨['d'], true⟩, ⟨['a', '.', 'm', 'p', '3'], false⟩,
        ⟨['b', '.', 'm', 'p', '3'], false⟩] [2, 0, 1] =
      .ok (['/', 'm', '/', 'a', '.', 'm', 'p', '3'], ⟨['/', 'm'], 2, 3, 1⟩) := by
  decide

/-- Claim C2, as amended.  For every listing of at most `N_BUF` entries, every
play order that is a permutation of `[0,total)` and every current selection
`s` whose entry is playable: if some position `p < s` holds a playable entry
(so that previous does not wrap), then `getPrevPath` returns, `getNextPath`
run on the level it leaves returns too, and the level is back at the original
selection `s`. -/
theorem prev_then_next_returns (dir : Dir) (buffer : List Buffer) (subscript : List Nat)
    (h50 : dir.totalFileCount ≤ N_BUF)
    (hbuf : dir.totalFileCount ≤ buffer.length)
    (hperm : subscript.Perm (List.range dir.totalFileCount))
    (hs : dir.numSelectFile < dir.totalFileCount)
    (hsel : ∃ e, entryAt buffer subscript dir.numSelectFile = some e ∧ playable e = true)
    (hp : ∃ p e, p < dir.numSelectFile ∧ entryAt buffer subscript p = some e ∧
      playable e = true)
    (fuel1 fuel2 : Nat) (hf1 : dir.totalFileCount ≤ fuel1)
    (hf2 : dir.totalFileCount ≤ fuel2) :
    ∃ path1 d1 path2 d2,
      getPrevPath fuel1 dir buffer subscript = .ok (path1, d1) ∧
      d1.numSelectFile < dir.numSelectFile ∧
      getNextPath fuel2 d1 buffer subscript = .ok (path2, d2) ∧
      d2.numSelectFile = dir.numSelectFile ∧ d2 = dir := by
  classical
  have h50b : dir.totalFileCount ≤ 50 := h50
  obtain ⟨es, hes, hpes⟩ := hsel
  have hex : ∃ d, 1 ≤ d ∧ d ≤ dir.numSelectFile ∧ ∃ e,
      entryAt buffer subscript (dir.numSelectFile - d) = some e ∧ playable e = true := by
    obtain ⟨p, e, hps, hpe, hpp⟩ := hp
    refine ⟨dir.numSelectFile - p, by omega, by omega, e, ?_, hpp⟩
    have : dir.numSelectFile - (dir.numSelectFile - p) = p := by omega
    rw [this]
    exact hpe
  have hd := Nat.find_spec hex
  have hmin := fun j (hj : j < Nat.find hex) => Nat.find_min hex hj
  generalize Nat.find hex = d at hd hmin
  obtain ⟨hd1, hdle, e, hed, hpe⟩ := hd
  have hskip : ∀ j, 1 ≤ j → j < d → ∃ x,
      entryAt buffer subscript (dir.numSelectFile - j) = some x ∧ playable x = false := by
    intro j hj1 hj2
    obtain ⟨x, hx⟩ := entryAt_of_perm buffer subscript dir.totalFileCount
      (dir.numSelectFile - j) hperm hbuf (by omega)
    refine ⟨x, hx, ?_⟩
    by_contra hne
    have hxp : playable x = true := by simpa using hne
    exact hmin j hj2 ⟨hj1, by omega, x, hx, hxp⟩
  have hprev : getPrevPath fuel1 dir buffer subscript =
      .ok (songPathOf dir e.filename, { dir with numSelectFile := dir.numSelectFile - d }) := by
    unfold getPrevPath
    rw [toInt8_natCast _ (by omega)]
    exact getPrevPathLoop_reach buffer subscript e d fuel1 dir.numSelectFile dir (by omega)
      hd1 hdle (by omega) hskip hed hpe
  have hback : ∀ j, j ≤ d →
      (dir.numSelectFile - d + j) % dir.totalFileCount = dir.numSelectFile - (d - j) := by
    intro j hj
    rw [Nat.mod_eq_of_lt (by omega)]
    omega
  have hnext : getNextPath fuel2 { dir with numSelectFile := dir.numSelectFile - d }
      buffer subscript = .ok (songPathOf dir es.filename, dir) := by
    unfold getNextPath
    rw [toInt8_natCast _ (by simp only []; omega)]
    have h := getNextPathLoop_reach buffer subscript es d fuel2 (dir.numSelectFile - d)
      { dir with numSelectFile := dir.numSelectFile - d } (by simp only []; omega)
      (by simp only []; omega) hd1 (by omega)
      (by
        intro j hj1 hj2
        simp only []
        rw [hback j (by omega)]
        exact hskip (d - j) (by omega) (by omega))
      (by
        simp only []
        rw [hback d (le_refl _)]
        simpa using hes)
      hpes
    rw [h]
    simp only []
    rw [hback d (le_refl _)]
    simp [songPathOf]
  refine ⟨_, _, _, _, hprev, ?_, hnext, rfl, rfl⟩
  simp only []
  omega

/-- Witness for `prev_then_next_returns`: three tracks in the root folder,
identity order, selection 2. -/
theorem prev_then_next_returns_witness :
    ∃ path1 d1 path2 d2,
      getPrevPath 3 ⟨['/'], 2, 3, 0⟩
        [⟨['a', '.', 'm', 'p', '3'], false⟩, ⟨['b', '.', 't', 'x', 't'], false⟩,
          ⟨['c', '.', 'm', 'p', '3'], false⟩] [0, 1, 2] = .ok (path1, d1) ∧
      d1.numSelectFile < 2 ∧
      getNextPath 3 d1
        [⟨['a', '.', 'm', 'p', '3'], false⟩, ⟨['b', '.', 't', 'x', 't'], false⟩,
          ⟨['c', '.', 'm', 'p', '3'], false⟩] [0, 1, 2] = .ok (path2, d2) ∧
      d2.numSelectFile = 2 ∧ d2 = ⟨['/'], 2, 3, 0⟩ :=
  prev_then_next_returns ⟨['/'], 2, 3, 0⟩
    [⟨['a', '.', 'm', 'p', '3'], false⟩, ⟨['b', '.', 't', 'x', 't'], false⟩,
      ⟨['c', '.', 'm', 'p', '3'], false⟩] [0, 1, 2]
    (by decide) (by decide) (by decide) (by decide)
    ⟨⟨['c', '.', 'm', 'p', '3'], false⟩, by decide, by decide⟩
    ⟨0, ⟨['a', '.', 'm', 'p', '3'], false⟩, by decide, by decide, by decide⟩
    3 3 (by decide) (by decide)

/-- Counterexample to claim C2 as stated.  Listing `a.txt`, `b.mp3` (both
flagged non-directory), identity order, selection 1: the selected entry is
playable and position 0 holds a non-directory entry, yet `getPrevPath` passes
the unsupported `a.txt`, retreats to `select = -1` and reads `subscript[-1]`,
outside the order array; with no amount of fuel does it return a level. -/
theorem prev_then_next_counterexample :
    [0, 1].Perm (List.range 2) ∧
      (∃ e, entryAt [⟨['a', '.', 't', 'x', 't'], false⟩,
          ⟨['b', '.', 'm', 'p', '3'], false⟩] [0, 1] 1 = some e ∧ playable e = true) ∧
      (∃ p e, p < 1 ∧ entryAt [⟨['a', '.', 't', 'x', 't'], false⟩,
          ⟨['b', '.', 'm', 'p', '3'], false⟩] [0, 1] p = some e ∧ e.isDir = false) ∧
      getPrevPath 2 ⟨['/'], 1, 2, 0⟩
        [⟨['a', '.', 't', 'x', 't'], false⟩, ⟨['b', '.', 'm', 'p', '3'], false⟩] [0, 1] =
        .error (.subscriptOutOfBounds (-1)) ∧
      ∀ fuel r, getPrevPath fuel ⟨['/'], 1, 2, 0⟩
        [⟨['a', '.', 't', 'x', 't'], false⟩, ⟨['b', '.', 'm', 'p', '3'], false⟩] [0, 1] ≠
        .ok r := by
  refine ⟨by decide, ⟨⟨['b', '.', 'm', 'p', '3'], false⟩, by decide, by decide⟩,
    ⟨0, ⟨['a', '.', 't', 'x', 't'], false⟩, by decide, by decide, by decide⟩,
    by decide, ?_⟩
  intro fuel r h
  have herr : ∃ f, getPrevPath fuel ⟨['/'], 1, 2, 0⟩
      [⟨['a', '.', 't', 'x', 't'], false⟩, ⟨['b', '.', 'm', 'p', '3'], false⟩] [0, 1] =
      .error f := by
    rcases fuel with _ | _ | fuel
    · exact ⟨.outOfFuel, rfl⟩
    · exact ⟨.outOfFuel, rfl⟩
    · refine ⟨.subscriptOutOfBounds (-1), ?_⟩
      unfold getPrevPath
      rw [getPrevPathLoop, getPrevPathLoop]
      rfl
  obtain ⟨f, hf⟩ := herr
  rw [hf] at h
  exact absurd h (by simp)

/-- Claim C4, the code at the failing input.  Two tracks in the root folder,
identity order, selection 0: no entry lies before the selection, so previous
has to wrap to position 1.  The retreat `select--` runs first (the guard is
`select < 0`, not `select <= 0`), and the loop condition reads
`subscript[-1]`, outside the order array, whatever the fuel. -/
theorem getPrevPath_wrap_reads_before_array (fuel : Nat) :
    getPrevPath (fuel + 1) ⟨['/'], 0, 2, 0⟩
      [⟨['a', '.', 'm', 'p', '3'], false⟩, ⟨['b', '.', 'm', 'p', '3'], false⟩] [0, 1] =
      .error (.subscriptOutOfBounds (-1)) := by
  rfl

/-! ## Metadata parser -/

set_option maxRecDepth 100000

theorem fileRead_length (data : List Nat) (pos n : Nat)
    (h : pos + n ≤ data.length) :
    (((data.drop pos).take n).map (fun b => b % 256)).length = n := by
  simp
  omega

/-- A read that the file can serve in full does not show the old contents of
the buffer among the bytes read. -/
theorem fileRead_getD (data : List Nat) (pos n : Nat) (buf : List Nat) (i : Nat)
    (h : pos + n ≤ data.length) (hi : i < n) :
    (fileRead data pos n buf).1.getD i 0 = (fileRead data pos n []).1.getD i 0 := by
  have hl := fileRead_length data pos n h
  unfold fileRead
  simp only []
  rw [List.getD_append _ _ _ _ (by omega), List.getD_append _ _ _ _ (by omega)]

theorem fileRead_take (data : List Nat) (pos n : Nat) (buf : List Nat)
    (h : pos + n ≤ data.length) :
    (fileRead data pos n buf).1.take n = (fileRead data pos n []).1.take n := by
  have hl := fileRead_length data pos n h
  unfold fileRead
  simp only []
  rw [List.take_left' hl, List.take_left' hl]

/-- When the file holds the four frame header bytes at the offset they are
read from and is at least 128 bytes long, the result of `getTagData` depends
neither on the old `mFrameHeader` nor on what the uninitialised locals
held. -/
theorem getTagData_of_full_reads (data : List Nat) (old : MPEGFrameHeader)
    (uninitHdr uninitTag : List Nat)
    (hh : frameHeaderPos data + 4 ≤ data.length) (ht : 128 ≤ data.length)
    (hsz : data.length < 2 ^ 32) :
    getTagData (some data) old uninitHdr uninitTag =
      getTagData (some data) ⟨0, 0, 0, 0⟩ [] [] := by
  have hseek : (data.length + 2 ^ 32 - ID3v1_SIZE) % 2 ^ 32 = data.length - 128 := by
    unfold ID3v1_SIZE
    omega
  have ht3 : data.length - 128 + 3 ≤ data.length := by omega
  simp only [getTagData, hseek, fileRead_getD data _ 4 uninitHdr _ hh (by decide : 0 < 4),
    fileRead_getD data _ 4 uninitHdr _ hh (by decide : 1 < 4),
    fileRead_getD data _ 4 uninitHdr _ hh (by decide : 2 < 4),
    fileRead_getD data _ 4 uninitHdr _ hh (by decide : 3 < 4),
    fileRead_take data _ 3 uninitTag ht3]

/-- Claim C5, the code at the failing input.  The 559-byte file
`taggedFile 0xFF 0xFB 0x91 0x00` has a 10-byte `ID3` region (`S = 10`), at
offset 10 a frame header with bitrate index 9 (128 kbps), sample rate index 0
(44100 Hz), padding bit (bit 9) clear and the private bit (bit 8) set, and a
trailing `TAG` block.  `getTagData` returns `(S + 4) + 128 = 142` as claimed,
but stores `padding_bit = 1` (it keeps bits 9 and 8), so `getmp3TotalTime`
divides the 417 payload bytes by 418 and returns 0 seconds, where the claim
gives `floor(417 / 417) * 1152 / 44100 = 32/1225` seconds.  With the private
bit clear (`0xFF 0xFB 0x90 0x00`) the claimed value is returned. -/
theorem getmp3TotalTime_private_bit_counts_as_padding (old : MPEGFrameHeader)
    (uninitHdr uninitTag : List Nat) :
    (taggedFile 0xFF 0xFB 0x91 0x00).length = 559 ∧
      ((0xFFFB9100 >>> 9) &&& 1 = 0 ∧ (0xFFFB9000 >>> 9) &&& 1 = 0) ∧
      getTagData (some (taggedFile 0xFF 0xFB 0x91 0x00)) old uninitHdr uninitTag =
        (142, ⟨128, 44100, 1, 0⟩) ∧
      getmp3TotalTime (some (taggedFile 0xFF 0xFB 0x91 0x00)) old uninitHdr uninitTag = 0 ∧
      (((559 - 10 - 132) / 417 : Nat) : ℚ) * 1152 / 44100 = 32 / 1225 ∧
      getTagData (some (taggedFile 0xFF 0xFB 0x90 0x00)) old uninitHdr uninitTag =
        (142, ⟨128, 44100, 0, 0⟩) ∧
      getmp3TotalTime (some (taggedFile 0xFF 0xFB 0x90 0x00)) old uninitHdr uninitTag =
        32 / 1225 := by
  have hA : getTagData (some (taggedFile 0xFF 0xFB 0x91 0x00)) old uninitHdr uninitTag =
      (142, ⟨128, 44100, 1, 0⟩) := by
    rw [getTagData_of_full_reads _ old uninitHdr uninitTag (by decide) (by decide) (by decide)]
    decide
  have hB : getTagData (some (taggedFile 0xFF 0xFB 0x90 0x00)) old uninitHdr uninitTag =
      (142, ⟨128, 44100, 0, 0⟩) := by
    rw [getTagData_of_full_reads _ old uninitHdr uninitTag (by decide) (by decide) (by decide)]
    decide
  have hlenA : (taggedFile 0xFF 0xFB 0x91 0x00).length = 559 := by rfl
  have hlenB : (taggedFile 0xFF 0xFB 0x90 0x00).length = 559 := by rfl
  refine ⟨hlenA, ⟨by decide, by decide⟩, hA, ?_, by norm_num, hB, ?_⟩
  · simp only [getmp3TotalTime, hA, hlenA]
    norm_num
  · simp only [getmp3TotalTime, hB, hlenB]
    norm_num

/-- Claim C6, the code at the failing input.  The 132-byte file
`bareFile 0x00 0x20 0x90 0x00` has no leading tag, and the four bytes read as
the frame header, `0x00209000`, have `1` in their 11 high bits, not the sync
pattern `0x7FF`.  The test `!((combine >> 15) && 0x07FF)` only rejects a
header whose 11 high bits are all zero, so `getTagData` accepts this one and
returns 4 (not 0), and `getmp3TotalTime` returns 0 seconds (not -1). -/
theorem getTagData_accepts_header_without_sync (old : MPEGFrameHeader)
    (uninitHdr uninitTag : List Nat) :
    frameHeaderPos (bareFile 0x00 0x20 0x90 0x00) = 0 ∧
      (0x00209000 >>> 21 = 1 ∧ 0x00209000 >>> 21 ≠ 0x7FF) ∧
      getTagData (some (bareFile 0x00 0x20 0x90 0x00)) old uninitHdr uninitTag =
        (4, ⟨128, 44100, 0, 0⟩) ∧
      getmp3TotalTime (some (bareFile 0x00 0x20 0x90 0x00)) old uninitHdr uninitTag = 0 ∧
      getmp3TotalTime (some (bareFile 0x00 0x20 0x90 0x00)) old uninitHdr uninitTag ≠ -1 := by
  have hA : getTagData (some (bareFile 0x00 0x20 0x90 0x00)) old uninitHdr uninitTag =
      (4, ⟨128, 44100, 0, 0⟩) := by
    rw [getTagData_of_full_reads _ old uninitHdr uninitTag (by decide) (by decide) (by decide)]
    decide
  have hlen : (bareFile 0x00 0x20 0x90 0x00).length = 132 := by rfl
  have hT : getmp3TotalTime (some (bareFile 0x00 0x20 0x90 0x00)) old uninitHdr uninitTag
      = 0 := by
    simp only [getmp3TotalTime, hA, hlen]
    norm_num
  refine ⟨by decide, ⟨by decide, by decide⟩, hA, hT, ?_⟩
  rw [hT]
  norm_num

/-- Counterexample to claim C7 as stated.  A ten-byte `ID3` header whose last
size byte is `0x80`: the size `getTagData` decodes is 128, because the byte
is added whole, while the syncsafe value with the top bit ignored is 0; the
frame header is read at offset 138, not at offset 10. -/
theorem ID3v2_size_counterexample :
    hasID3 (readID3v2Header [0x49, 0x44, 0x33, 3, 0, 0, 0, 0, 0, 0x80]).1 = true ∧
      ID3v2_size (readID3v2Header [0x49, 0x44, 0x33, 3, 0, 0, 0, 0, 0, 0x80]).1 = 128 ∧
      syncsafe 0 0 0 0x80 = 0 ∧
      frameHeaderPos [0x49, 0x44, 0x33, 3, 0, 0, 0, 0, 0, 0x80] = 138 ∧
      frameHeaderPos [0x49, 0x44, 0x33, 3, 0, 0, 0, 0, 0, 0x80] ≠ 10 + syncsafe 0 0 0 0x80 := by
  decide

/-- Claim C7, as amended.  For every file that begins with the `ID3` marker
and has the ten header bytes, and every value `0..255` of the four size bytes
`b0..b3`, the size `getTagData` decodes is `b0*2^21 + b1*2^14 + b2*2^7 + b3`
with the bytes taken whole (no bit is masked), the frame header is read at
offset 10 plus that size, and when every size byte is below `0x80` this is
the syncsafe value. -/
theorem ID3v2_size_unmasked (v0 v1 flags b0 b1 b2 b3 : Nat) (rest : List Nat)
    (h0 : b0 < 256) (h1 : b1 < 256) (h2 : b2 < 256) (h3 : b3 < 256) :
    ID3v2_size (readID3v2Header
        ([0x49, 0x44, 0x33, v0, v1, flags, b0, b1, b2, b3] ++ rest)).1 =
        b0 * 2 ^ 21 + b1 * 2 ^ 14 + b2 * 2 ^ 7 + b3 ∧
      frameHeaderPos ([0x49, 0x44, 0x33, v0, v1, flags, b0, b1, b2, b3] ++ rest) =
        10 + (b0 * 2 ^ 21 + b1 * 2 ^ 14 + b2 * 2 ^ 7 + b3) ∧
      (b0 < 0x80 → b1 < 0x80 → b2 < 0x80 → b3 < 0x80 →
        b0 * 2 ^ 21 + b1 * 2 ^ 14 + b2 * 2 ^ 7 + b3 = syncsafe b0 b1 b2 b3) := by
  have hhdr : readID3v2Header ([0x49, 0x44, 0x33, v0, v1, flags, b0, b1, b2, b3] ++ rest) =
      ([0x49, 0x44, 0x33, v0 % 256, v1 % 256, flags % 256, b0, b1, b2, b3], 10) := by
    simp [readID3v2Header, fileRead, Nat.mod_eq_of_lt h0, Nat.mod_eq_of_lt h1,
      Nat.mod_eq_of_lt h2, Nat.mod_eq_of_lt h3]
  have hsize : ID3v2_size [0x49, 0x44, 0x33, v0 % 256, v1 % 256, flags % 256, b0, b1, b2, b3] =
      b0 * 2 ^ 21 + b1 * 2 ^ 14 + b2 * 2 ^ 7 + b3 := by
    simp only [ID3v2_size, List.getD_cons_succ, List.getD_cons_zero, Nat.shiftLeft_eq]
    omega
  have hid : hasID3 [0x49, 0x44, 0x33, v0 % 256, v1 % 256, flags % 256, b0, b1, b2, b3] =
      true := by
    simp [hasID3]
  refine ⟨?_, ?_, ?_⟩
  · rw [hhdr]
    exact hsize
  · unfold frameHeaderPos
    simp only [hhdr, hid, hsize, if_true]
    omega
  · intro g0 g1 g2 g3
    have hm : ∀ b, b < 0x80 → b &&& 0x7F = b := by
      intro b hb
      have : (0x7F : Nat) = 2 ^ 7 - 1 := by norm_num
      rw [this, Nat.and_pow_two_sub_one_eq_mod]
      exact Nat.mod_eq_of_lt hb
    simp only [syncsafe, hm b0 g0, hm b1 g1, hm b2 g2, hm b3 g3]

/-- Witness for `ID3v2_size_unmasked`: size bytes `0, 0, 2, 0x81` and a frame
header after the marker. -/
theorem ID3v2_size_unmasked_witness :
    ID3v2_size (readID3v2Header
        ([0x49, 0x44, 0x33, 3, 0, 0, 0, 0, 2, 0x81] ++ [0xFF, 0xFB, 0x90, 0x00])).1 =
        0 * 2 ^ 21 + 0 * 2 ^ 14 + 2 * 2 ^ 7 + 0x81 ∧
      frameHeaderPos ([0x49, 0x44, 0x33, 3, 0, 0, 0, 0, 2, 0x81] ++ [0xFF, 0xFB, 0x90, 0x00]) =
        10 + (0 * 2 ^ 21 + 0 * 2 ^ 14 + 2 * 2 ^ 7 + 0x81) :=
  have h := ID3v2_size_unmasked 3 0 0 0 0 2 0x81 [0xFF, 0xFB, 0x90, 0x00]
    (by decide) (by decide) (by decide) (by decide)
  ⟨h.1, h.2.1⟩

/-- Claim C8, the code at the failing input.  The frame header
`0xFFFB9200` (sync, 128 kbps, 44100 Hz, padding bit set, private bit clear)
is accepted; bitrate, sampling rate and channel are the header's bit fields,
but the stored `padding_bit` is `(h >> 8) & 3 = 2`, the padding bit together
with the private bit below it, where the single padding bit `(h >> 9) & 1`
is 1. -/
theorem getTagData_padding_bit_two_bits (old : MPEGFrameHeader)
    (uninitHdr uninitTag : List Nat) :
    getTagData (some (bareFile 0xFF 0xFB 0x92 0x00)) old uninitHdr uninitTag =
        (4, ⟨128, 44100, 2, 0⟩) ∧
      bitrate.getD ((0xFFFB9200 >>> 12) &&& 0xF) 0 = 128 ∧
      sampling_rate.getD ((0xFFFB9200 >>> 10) &&& 0x3) 0 = 44100 ∧
      (0xFFFB9200 >>> 6) &&& 0x3 = 0 ∧
      (0xFFFB9200 >>> 9) &&& 1 = 1 ∧
      (0xFFFB9200 >>> 8) &&& 3 = 2 := by
  refine ⟨?_, by decide, by decide, by decide, by decide, by decide⟩
  rw [getTagData_of_full_reads _ old uninitHdr uninitTag (by decide) (by decide) (by decide)]
  decide

/-! ## Directory listing -/

/-- Claim C9, the code at the failing input.  The enumeration holds one
entry, a directory named `a.mp3`.  Pass 0 lists it flagged `isDir`; the
second pass tests the name only, so it lists the same directory again,
flagged as a file: two entries and `totalFileCount = 2`, where the listing
should be the one directory with `totalFileCount = 1`. -/
theorem initDirBuffer_lists_mp3_directory_twice (dir : Dir) :
    initDirBuffer [⟨['a', '.', 'm', 'p', '3'], true⟩] dir emptyBuffer =
      ({ dir with dirCount := 1, totalFileCount := 2 },
        [⟨['a', '.', 'm', 'p', '3'], true⟩, ⟨['a', '.', 'm', 'p', '3'], false⟩] ++
          List.replicate 48 ⟨[], false⟩, []) := by
  rfl

/-- Claim C10, the code at the failing input.  An enumeration of 51 files
named `a.mp3`: the 51st is stored at buffer index 50, outside the `N_BUF = 50`
entries of the buffer, and the level records `totalFileCount = 51`. -/
theorem initDirBuffer_overflows_buffer (dir : Dir) :
    (initDirBuffer (List.replicate 51 ⟨['a', '.', 'm', 'p', '3'], false⟩) dir
        emptyBuffer).2.2 = [50] ∧
      (initDirBuffer (List.replicate 51 ⟨['a', '.', 'm', 'p', '3'], false⟩) dir
        emptyBuffer).1.totalFileCount = 51 := by
  constructor <;> rfl

/-! ## Selection window of `select` -/

/-- Claim C11.  For every directory with `total ≥ 5` entries and every stored
selection `s < total`, on entering the directory `select` draws the listing
from the window offset `clamp(s - 2, 0, total - 5)` and highlights the row
`s - offset`; whenever the selection is centred (`2 ≤ s ≤ total - 3`) that is
row 2 with offset `s - 2`. -/
theorem selectEntry_window (dir : Dir)
    (h5 : 5 ≤ dir.totalFileCount) (h255 : dir.totalFileCount ≤ 255)
    (hs : dir.numSelectFile < dir.totalFileCount) :
    ((selectEntry dir).drawn : Int) =
        clamp ((dir.numSelectFile : Int) - 2) 0 ((dir.totalFileCount : Int) - 5) ∧
      (selectEntry dir).selectNum = dir.numSelectFile ∧
      (selectEntry dir).position =
        (dir.numSelectFile : Int) - ((selectEntry dir).drawn : Int) ∧
      (2 ≤ dir.numSelectFile → dir.numSelectFile + 3 ≤ dir.totalFileCount →
        (selectEntry dir).position = 2 ∧
          (selectEntry dir).drawn + 2 = dir.numSelectFile) := by
  have hmod : dir.numSelectFile % 256 = dir.numSelectFile := Nat.mod_eq_of_lt (by omega)
  unfold selectEntry clamp
  simp only [hmod]
  have close : ∀ (a b c : Prop) (d : Prop), a → b → c → (2 ≤ dir.numSelectFile →
      dir.numSelectFile + 3 ≤ dir.totalFileCount → d) →
      a ∧ b ∧ c ∧ (2 ≤ dir.numSelectFile → dir.numSelectFile + 3 ≤ dir.totalFileCount → d) :=
    fun _ _ _ _ ha hb hc hd => ⟨ha, hb, hc, hd⟩
  split
  · simp only [toInt8]
    split_ifs <;> refine close _ _ _ _ (by omega) trivial (by omega)
      (fun _ _ => ⟨by omega, by omega⟩)
  · split
    · simp only [toInt8, toUInt8]
      split_ifs <;> refine close _ _ _ _ (by omega) trivial (by omega)
        (fun _ _ => ⟨by omega, by omega⟩)
    · simp only [toUInt8]
      split_ifs <;> refine close _ _ _ _ (by omega) trivial (by omega)
        (fun _ _ => ⟨trivial, by omega⟩)

/-- Witness for `selectEntry_window`, the three cases named in the claim: for
`total = 20` the selections 0, 19 and 10 give the offsets 0, 15 and 8. -/
theorem selectEntry_window_witness :
    (selectEntry ⟨['/'], 0, 20, 0⟩).drawn = 0 ∧
      (selectEntry ⟨['/'], 19, 20, 0⟩).drawn = 15 ∧
      (selectEntry ⟨['/'], 10, 20, 0⟩).drawn = 8 ∧
      (selectEntry ⟨['/'], 10, 20, 0⟩).position = 2 := by
  have h0 := selectEntry_window ⟨['/'], 0, 20, 0⟩ (by decide) (by decide) (by decide)
  have h19 := selectEntry_window ⟨['/'], 19, 20, 0⟩ (by decide) (by decide) (by decide)
  have h10 := selectEntry_window ⟨['/'], 10, 20, 0⟩ (by decide) (by decide) (by decide)
  refine ⟨?_, ?_, ?_, (h10.2.2.2 (by decide) (by decide)).1⟩
  · have := h0.1
    simp only [clamp] at this
    omega
  · have := h19.1
    simp only [clamp] at this
    omega
  · have := h10.1
    simp only [clamp] at this
    omega

/-- A press of `prev` or `next` keeps the cursor consistent with the
screen. -/
theorem selectPress_invariant (dir : Dir) (c : Cursor) (push : Button)
    (h1 : 1 ≤ dir.totalFileCount) (h255 : dir.totalFileCount ≤ 255)
    (hpush : push = .prev ∨ push = .next) (hc : CursorOk dir c) :
    CursorOk dir (selectPress dir c push) := by
  obtain ⟨hs, hrow, hlo, hhi, hwin⟩ := hc
  unfold CursorOk
  rcases hpush with rfl | rfl
  · simp only [selectPress]
    split_ifs <;> (try simp only [toInt8, toUInt8]) <;>
      refine ⟨by omega, by omega, by omega, by omega, by omega⟩
  · simp only [selectPress]
    split_ifs <;> (try simp only [toInt8, toUInt8]) <;>
      refine ⟨by omega, by omega, by omega, by omega, by omega⟩

theorem selectEntry_fresh (dir : Dir) (h0 : dir.numSelectFile = 0) :
    selectEntry dir = ⟨0, 0, 0⟩ := by
  unfold selectEntry
  simp [h0, toInt8]

theorem foldl_selectPress_invariant (dir : Dir)
    (h1 : 1 ≤ dir.totalFileCount) (h255 : dir.totalFileCount ≤ 255) :
    ∀ (presses : List Button) (c : Cursor), CursorOk dir c →
      (∀ b ∈ presses, b = .prev ∨ b = .next) →
      CursorOk dir (presses.foldl (selectPress dir) c) := by
  intro presses
  induction presses with
  | nil => intro c hc _; exact hc
  | cons b rest ih =>
    intro c hc hall
    rw [List.foldl_cons]
    exact ih _ (selectPress_invariant dir c b h1 h255 (hall b (List.mem_cons_self _ _)) hc)
      (fun x hx => hall x (List.mem_cons_of_mem _ hx))

/-- Claim C12.  For every `total ≥ 1`, starting from a freshly entered
directory (selection 0, row 0, window offset 0) and after any sequence of
`prev` and `next` presses: the highlighted row equals the selection minus the
drawn window offset and lies in `0..4`; a `next` press changes the selection
`s` to `(s + 1) mod total` and a `prev` press to `(s - 1) mod total`; when
`next` wraps past the last entry the window drawn is at offset 0, and when
`prev` wraps from the first entry it is at the final edge, offset
`max(total - 5, 0)`. -/
theorem select_cursor_moves_and_wraps (dir : Dir) (presses : List Button)
    (h1 : 1 ≤ dir.totalFileCount) (h255 : dir.totalFileCount ≤ 255)
    (h0 : dir.numSelectFile = 0)
    (hp : ∀ b ∈ presses, b = .prev ∨ b = .next) :
    (selectRun dir presses).selectNum < dir.totalFileCount ∧
      (selectRun dir presses).position =
        ((selectRun dir presses).selectNum : Int) - ((selectRun dir presses).drawn : Int) ∧
      (0 ≤ (selectRun dir presses).position ∧ (selectRun dir presses).position ≤ 4) ∧
      (selectPress dir (selectRun dir presses) .next).selectNum =
        ((selectRun dir presses).selectNum + 1) % dir.totalFileCount ∧
      (selectPress dir (selectRun dir presses) .prev).selectNum =
        ((selectRun dir presses).selectNum + dir.totalFileCount - 1) % dir.totalFileCount ∧
      ((selectRun dir presses).selectNum + 1 = dir.totalFileCount →
        (selectPress dir (selectRun dir presses) .next).drawn = 0) ∧
      ((selectRun dir presses).selectNum = 0 →
        (selectPress dir (selectRun dir presses) .prev).drawn = dir.totalFileCount - 5) := by
  have hfresh : CursorOk dir (selectEntry dir) := by
    rw [selectEntry_fresh dir h0]
    unfold CursorOk
    refine ⟨by simp only []; omega, by simp, by simp, by simp, by simp⟩
  have hok := foldl_selectPress_invariant dir h1 h255 presses (selectEntry dir) hfresh hp
  have hrun : selectRun dir presses = presses.foldl (selectPress dir) (selectEntry dir) := rfl
  rw [← hrun] at hok
  generalize selectRun dir presses = c at hok
  obtain ⟨hs, hrow, hlo, hhi, hwin⟩ := hok
  refine ⟨hs, hrow, ⟨hlo, hhi⟩, ?_, ?_, ?_, ?_⟩
  · by_cases hw : c.selectNum + 1 = dir.totalFileCount
    · rw [hw, Nat.mod_self]
      simp only [selectPress]
      split_ifs <;> (try simp only [toInt8, toUInt8]) <;> omega
    · rw [Nat.mod_eq_of_lt (by omega)]
      simp only [selectPress]
      split_ifs <;> (try simp only [toInt8, toUInt8]) <;> omega
  · by_cases hw : c.selectNum = 0
    · rw [hw, Nat.zero_add, Nat.mod_eq_of_lt (by omega)]
      simp only [selectPress]
      split_ifs <;> (try simp only [toInt8, toUInt8]) <;> omega
    · have hsum : c.selectNum + dir.totalFileCount - 1 =
          (c.selectNum - 1) + dir.totalFileCount := by omega
      rw [hsum, Nat.add_mod_right, Nat.mod_eq_of_lt (by omega)]
      simp only [selectPress]
      split_ifs <;> (try simp only [toInt8, toUInt8]) <;> omega
  · intro hw
    simp only [selectPress]
    split_ifs <;> (try simp only [toInt8, toUInt8]) <;> omega
  · intro hw
    simp only [selectPress]
    split_ifs <;> (try simp only [toInt8, toUInt8]) <;> omega

/-- Witness for `select_cursor_moves_and_wraps`: seven entries, after the
presses `prev` (wrap to the last entry), `prev`, `next` the cursor is on the
last entry again, and the `next` press that follows wraps to the first. -/
theorem select_cursor_moves_and_wraps_witness :
    (selectRun ⟨['/'], 0, 7, 0⟩ [.prev, .prev, .next]).selectNum < 7 ∧
      (selectPress ⟨['/'], 0, 7, 0⟩
        (selectRun ⟨['/'], 0, 7, 0⟩ [.prev, .prev, .next]) .next).selectNum =
        ((selectRun ⟨['/'], 0, 7, 0⟩ [.prev, .prev, .next]).selectNum + 1) % 7 ∧
      ((selectRun ⟨['/'], 0, 7, 0⟩ [.prev, .prev, .next]).selectNum + 1 = 7 →
        (selectPress ⟨['/'], 0, 7, 0⟩
          (selectRun ⟨['/'], 0, 7, 0⟩ [.prev, .prev, .next]) .next).drawn = 0) :=
  have h := select_cursor_moves_and_wraps ⟨['/'], 0, 7, 0⟩ [.prev, .prev, .next]
    (by decide) (by decide) rfl (by decide)
  ⟨h.1, h.2.2.2.1, h.2.2.2.2.2.1⟩

/-- A run of the cursor by hand: seven entries; `prev` wraps to entry 6 at
row 4 with the window at offset 2, `prev` moves to entry 5 at row 3, `next`
returns to entry 6, and `next` wraps to entry 0 with the window at offset
0. -/
theorem selectRun_example :
    selectRun ⟨['/'], 0, 7, 0⟩ [.prev] = ⟨6, 4, 2⟩ ∧
      selectRun ⟨['/'], 0, 7, 0⟩ [.prev, .prev] = ⟨5, 3, 2⟩ ∧
      selectRun ⟨['/'], 0, 7, 0⟩ [.prev, .prev, .next] = ⟨6, 4, 2⟩ ∧
      selectRun ⟨['/'], 0, 7, 0⟩ [.prev, .prev, .next, .next] = ⟨0, 0, 0⟩ := by
  decide

/-- Claim C17, the code at the failing input.  A directory of four entries
entered with the stored selection 3: the selection is not among the first
three, so the second branch of `select` runs and calls
`printDirectory(buf, totalFileCount - 5)`; the value `-1` arrives in the
`uint8_t` parameter as 255, the row highlighted is 4, and the first entry
`printDirectory` draws is `buf[255]`, outside the buffer.  The listing should
be drawn from offset 0 with row 3 highlighted, as it is for the selections 0,
1 and 2. -/
theorem selectEntry_short_listing_last_entry :
    selectEntry ⟨['/'], 3, 4, 0⟩ = ⟨3, 4, 255⟩ ∧
      printDirectory fourTracks 255 = .error (.bufferOutOfBounds 255) ∧
      selectEntry ⟨['/'], 2, 4, 0⟩ = ⟨2, 2, 0⟩ ∧
      printDirectory fourTracks 0 = .ok (fourTracks.take 4) := by
  decide

/-! ## Button debouncer -/

theorem timeMeasure_mod (now st : Nat) :
    timeMeasure now (st % 2 ^ 32) = timeMeasure now st := by
  unfold timeMeasure
  rw [Nat.mod_mod]

theorem timeMeasure_congr (now s1 s2 : Nat) (h : s1 % 2 ^ 32 = s2 % 2 ^ 32) :
    timeMeasure now s1 = timeMeasure now s2 := by
  unfold timeMeasure
  rw [h]

theorem pollAll_cons (cont : Bool) (chatter long : Nat) (ch : Channel)
    (p : PinLevel × Nat) (ps : List (PinLevel × Nat)) :
    pollAll cont chatter long ch (p :: ps) =
      ((pushButton p.1 p.2 ch cont chatter long).1 ::
        (pollAll cont chatter long (pushButton p.1 p.2 ch cont chatter long).2 ps).1,
       (pollAll cont chatter long (pushButton p.1 p.2 ch cont chatter long).2 ps).2) := rfl

/-- A poll with the pin low never returns `momentPress_determined`. -/
theorem pushButton_low_ne_moment (now : Nat) (ch : Channel) (cont : Bool)
    (chatter long : Nat) :
    (pushButton .LOW now ch cont chatter long).1 ≠ .momentPress_determined := by
  unfold pushButton
  rcases ch with ⟨st, start⟩
  cases st <;> cases cont <;> simp <;> split_ifs <;> simp

/-- During a hold the channel does not return to `Release`, and as long as it
is in `ON_start` its `start_time` is the one stored by the first poll. -/
theorem pushButton_low_keeps_start (now t0 : Nat) (ch : Channel) (cont : Bool)
    (chatter long : Nat) (hne : ch.button_status ≠ .Release)
    (hst : ch.button_status = .ON_start → ch.start_time % 2 ^ 32 = t0 % 2 ^ 32) :
    (pushButton .LOW now ch cont chatter long).2.button_status ≠ .Release ∧
      ((pushButton .LOW now ch cont chatter long).2.button_status = .ON_start →
        (pushButton .LOW now ch cont chatter long).2.start_time % 2 ^ 32 = t0 % 2 ^ 32) := by
  unfold pushButton
  rcases ch with ⟨st, start⟩
  cases st <;> cases cont <;> simp at hne hst ⊢ <;> split_ifs <;> simp [hst]

theorem hold_then_release_no_moment (cont : Bool) (chatter long t0 t1 : Nat)
    (hshort : timeMeasure t1 t0 ≤ chatter) :
    ∀ (times : List Nat) (ch : Channel), ch.button_status ≠ .Release →
      (ch.button_status = .ON_start → ch.start_time % 2 ^ 32 = t0 % 2 ^ 32) →
      ∀ r ∈ (pollAll cont chatter long ch (lowPolls times ++ [(.HIGH, t1)])).1,
        r ≠ .momentPress_determined := by
  intro times
  induction times with
  | nil =>
    intro ch _ hst r hr
    simp only [lowPolls, List.map_nil, List.nil_append, pollAll_cons, pollAll,
      List.mem_singleton] at hr
    subst hr
    unfold pushButton
    simp only []
    by_cases hon : ch.button_status = .ON_start
    · have hle : ¬ timeMeasure t1 ch.start_time > chatter := by
        rw [timeMeasure_congr t1 _ _ (hst hon)]
        omega
      simp [hon, hle]
    · simp [hon]
  | cons t rest ih =>
    intro ch hne hst r hr
    have hstep := pushButton_low_keeps_start t t0 ch cont chatter long hne hst
    simp only [lowPolls, List.map_cons, List.cons_append, pollAll_cons,
      List.mem_cons] at hr
    rcases hr with hr | hr
    · rw [hr]
      exact pushButton_low_ne_moment t ch cont chatter long
    · exact ih _ hstep.1 hstep.2 r hr

/-- Claim C13.  For every channel, debounce interval, long-press threshold
and auto-repeat setting: if the pin is first read low at time `t0` from the
`Release` state, stays low for any number of polls (at any times), and is
then read high at time `t1` with `t1 - t0` (mod `2^32`) not exceeding the
debounce interval, then no poll of that pulse, the releasing one included,
returns `momentPress_determined`. -/
theorem pushButton_short_pulse_no_moment (ch : Channel) (cont : Bool)
    (chatter long t0 t1 : Nat) (mid : List Nat)
    (hrel : ch.button_status = .Release)
    (hshort : timeMeasure t1 t0 ≤ chatter) :
    Btn_Status.momentPress_determined ∉
      (pollAll cont chatter long ch (lowPolls (t0 :: mid) ++ [(.HIGH, t1)])).1 := by
  intro hr
  have hfirst : pushButton .LOW t0 ch cont chatter long =
      (.Release, ⟨.ON_start, t0 % 2 ^ 32⟩) := by
    unfold pushButton
    simp [hrel]
  simp only [lowPolls, List.map_cons, List.cons_append, pollAll_cons, hfirst,
    List.mem_cons] at hr
  rcases hr with hr | hr
  · simp at hr
  · exact hold_then_release_no_moment cont chatter long t0 t1 hshort mid
      ⟨.ON_start, t0 % 2 ^ 32⟩ (by simp) (by intro _; simp) _ hr rfl

/-- Witness for `pushButton_short_pulse_no_moment`: debounce interval 10, a
press at time 100 that is polled again at 103 and 106 and released at 110. -/
theorem pushButton_short_pulse_no_moment_witness :
    Btn_Status.momentPress_determined ∉
      (pollAll false 10 500 ⟨.Release, 0⟩
        (lowPolls (100 :: [103, 106]) ++ [(.HIGH, 110)])).1 :=
  pushButton_short_pulse_no_moment ⟨.Release, 0⟩ false 10 500 100 110 [103, 106] rfl
    (by decide)

/-- The same pulse released one millisecond later, and a pulse across the
wrap of the 32-bit clock: both are longer than the debounce interval and
return `momentPress_determined` at the release. -/
theorem pushButton_pulse_example :
    (pollAll false 10 500 ⟨.Release, 0⟩
        (lowPolls [100, 103, 106] ++ [(.HIGH, 111)])).1 =
        [.Release, .Release, .Release, .momentPress_determined] ∧
      (pollAll false 10 500 ⟨.Release, 0⟩
        (lowPolls [4294967290, 2] ++ [(.HIGH, 5)])).1 =
        [.Release, .Release, .momentPress_determined] := by
  decide

/-- In the `continuous_press` state a poll with the pin low that returns no
`continuous_press` event leaves the channel as it is. -/
theorem pushButton_continuous_idle (now : Nat) (ch : Channel) (cont : Bool)
    (chatter long : Nat) (hst : ch.button_status = .continuous_press)
    (hno : (pushButton .LOW now ch cont chatter long).1 ≠ .continuous_press) :
    (pushButton .LOW now ch cont chatter long).2 = ch := by
  rcases ch with ⟨st, start⟩
  simp only [] at hst
  subst hst
  unfold pushButton at hno ⊢
  simp only [] at hno ⊢
  split_ifs at hno ⊢
  · simp at hno
  · rfl

theorem hold_without_event_keeps_channel (cont : Bool) (chatter long : Nat) :
    ∀ (times : List Nat) (ch : Channel), ch.button_status = .continuous_press →
      (∀ r ∈ (pollAll cont chatter long ch (lowPolls times)).1, r ≠ .continuous_press) →
      (pollAll cont chatter long ch (lowPolls times)).2 = ch := by
  intro times
  induction times with
  | nil => intro ch _ _; rfl
  | cons t rest ih =>
    intro ch hst hno
    simp only [lowPolls, List.map_cons, pollAll_cons, List.mem_cons] at hno ⊢
    have h1 := pushButton_continuous_idle t ch cont chatter long hst
      (hno _ (Or.inl rfl))
    rw [h1] at hno ⊢
    exact ih ch hst (fun r hr => hno r (Or.inr hr))

/-- Claim C14.  With auto-repeat enabled (`continuous_set = true`), from any
channel state and at any poll time: `pushButton` never returns
`longPress_determined`.  The hold passing the long-press threshold is
recorded by the `continuous_press` state (the low poll that finds the
threshold exceeded in `ON_start` enters it, without an event and without
touching `start_time`); in that state every low poll at which the time since
`start_time` exceeds the threshold returns `continuous_press` and resets
`start_time` to that poll's time, so that the next `continuous_press` event of
the hold comes more than one threshold later (mod `2^32`). -/
theorem pushButton_auto_repeat (ch : Channel) (pin : PinLevel)
    (now chatter long : Nat) :
    (pushButton pin now ch true chatter long).1 ≠ .longPress_determined ∧
      (ch.button_status = .ON_start → timeMeasure now ch.start_time > long →
        pushButton .LOW now ch true chatter long =
          (.Release, ⟨.continuous_press, ch.start_time⟩)) ∧
      (ch.button_status = .continuous_press → timeMeasure now ch.start_time > long →
        pushButton .LOW now ch true chatter long =
          (.continuous_press, ⟨.continuous_press, now % 2 ^ 32⟩)) ∧
      (∀ (mid : List Nat) (later : Nat),
        (pushButton .LOW now ch true chatter long).1 = .continuous_press →
        (∀ r ∈ (pollAll true chatter long (pushButton .LOW now ch true chatter long).2
          (lowPolls mid)).1, r ≠ .continuous_press) →
        (pushButton .LOW later
          (pollAll true chatter long (pushButton .LOW now ch true chatter long).2
            (lowPolls mid)).2 true chatter long).1 = .continuous_press →
        timeMeasure later now > long) := by
  rcases ch with ⟨st, start⟩
  refine ⟨?_, ?_, ?_, ?_⟩
  · unfold pushButton
    cases pin <;> cases st <;> simp <;> split_ifs <;> simp
  · intro hst hgt
    simp only [] at hst hgt
    subst hst
    unfold pushButton
    simp [hgt]
  · intro hst hgt
    simp only [] at hst hgt
    subst hst
    unfold pushButton
    simp [hgt]
  · intro mid later hev hno hlater
    -- an event is only returned from the `continuous_press` state
    have hstate : st = .continuous_press ∧ timeMeasure now start > long := by
      unfold pushButton at hev
      cases st <;> simp at hev ⊢
      · split_ifs at hev
      · by_contra hle
        rw [if_neg hle] at hev
        simp at hev
    obtain ⟨hst, hgt⟩ := hstate
    subst hst
    have hafter : pushButton .LOW now ⟨.continuous_press, start⟩ true chatter long =
        (.continuous_press, ⟨.continuous_press, now % 2 ^ 32⟩) := by
      unfold pushButton
      simp [hgt]
    rw [hafter] at hno hlater
    simp only [] at hno hlater
    rw [hold_without_event_keeps_channel true chatter long mid
      ⟨.continuous_press, now % 2 ^ 32⟩ rfl hno] at hlater
    unfold pushButton at hlater
    simp only [] at hlater
    split_ifs at hlater with hcond
    rw [timeMeasure_mod] at hcond
    exact hcond

/-- Witness for `pushButton_auto_repeat`: threshold 500, a channel in
`continuous_press` whose `start_time` is 700, polled low at 1201; the polls
at 1300 and 1500 return no event and the poll at 1702 returns the next
one. -/
theorem pushButton_auto_repeat_witness :
    pushButton .LOW 1201 ⟨.continuous_press, 700⟩ true 10 500 =
        (.continuous_press, ⟨.continuous_press, 1201 % 2 ^ 32⟩) ∧
      timeMeasure 1702 1201 > 500 :=
  have h := pushButton_auto_repeat ⟨.continuous_press, 700⟩ .LOW 1201 10 500
  ⟨h.2.2.1 rfl (by decide), h.2.2.2 [1300, 1500] 1702 (by decide) (by decide) (by decide)⟩

/-- A hold with auto-repeat by hand (threshold 500): pressed at 0; the poll
at 600 finds the threshold exceeded and only enters `continuous_press`; the
polls at 700 and 1201 return `continuous_press`; the release returns no
event. -/
theorem pushButton_auto_repeat_example :
    pollAll true 10 500 ⟨.Release, 0⟩
        (lowPolls [0, 100, 600, 700, 1000, 1201, 1300] ++ [(.HIGH, 1400)]) =
      ([.Release, .Release, .Release, .continuous_press, .Release, .continuous_press,
          .Release, .Release], ⟨.Release, 1201⟩) := by
  decide

/-- A low poll that returns `longPress_determined` or `continuous_press`
leaves the channel in the state of that name. -/
theorem pushButton_low_event_state (now : Nat) (ch : Channel) (cont : Bool)
    (chatter long : Nat)
    (hev : (pushButton .LOW now ch cont chatter long).1 = .longPress_determined ∨
      (pushButton .LOW now ch cont chatter long).1 = .continuous_press) :
    (pushButton .LOW now ch cont chatter long).2.button_status = .longPress_determined ∨
      (pushButton .LOW now ch cont chatter long).2.button_status = .continuous_press := by
  rcases ch with ⟨st, start⟩
  unfold pushButton at hev ⊢
  cases st <;> cases cont <;> simp at hev ⊢ <;> split_ifs at hev ⊢ <;> simp at hev ⊢

/-- A channel in `longPress_determined` or `continuous_press` stays there
while the pin is read low. -/
theorem pushButton_low_latched (now : Nat) (ch : Channel) (cont : Bool)
    (chatter long : Nat)
    (hst : ch.button_status = .longPress_determined ∨
      ch.button_status = .continuous_press) :
    (pushButton .LOW now ch cont chatter long).2.button_status = .longPress_determined ∨
      (pushButton .LOW now ch cont chatter long).2.button_status = .continuous_press := by
  rcases ch with ⟨st, start⟩
  unfold pushButton
  rcases hst with hst | hst
  · simp only [] at hst
    subst hst
    simp
  · simp only [] at hst
    subst hst
    simp only []
    split_ifs <;> simp

theorem hold_latched (cont : Bool) (chatter long : Nat) :
    ∀ (times : List Nat) (ch : Channel),
      (ch.button_status = .longPress_determined ∨ ch.button_status = .continuous_press) →
      ((pollAll cont chatter long ch (lowPolls times)).2.button_status =
          .longPress_determined ∨
        (pollAll cont chatter long ch (lowPolls times)).2.button_status =
          .continuous_press) := by
  intro times
  induction times with
  | nil => intro ch hst; exact hst
  | cons t rest ih =>
    intro ch hst
    simp only [lowPolls, List.map_cons, pollAll_cons]
    exact ih _ (pushButton_low_latched t ch cont chatter long hst)

theorem hold_event_latched (cont : Bool) (chatter long : Nat) :
    ∀ (times : List Nat) (ch : Channel),
      (∃ r ∈ (pollAll cont chatter long ch (lowPolls times)).1,
        r = .longPress_determined ∨ r = .continuous_press) →
      ((pollAll cont chatter long ch (lowPolls times)).2.button_status =
          .longPress_determined ∨
        (pollAll cont chatter long ch (lowPolls times)).2.button_status =
          .continuous_press) := by
  intro times
  induction times with
  | nil =>
    intro ch hev
    obtain ⟨r, hr, _⟩ := hev
    simp [lowPolls, pollAll] at hr
  | cons t rest ih =>
    intro ch hev
    obtain ⟨r, hr, hev⟩ := hev
    simp only [lowPolls, List.map_cons, pollAll_cons, List.mem_cons] at hr ⊢
    rcases hr with hr | hr
    · subst hr
      exact hold_latched cont chatter long rest _
        (pushButton_low_event_state t ch cont chatter long hev)
    · exact ih _ ⟨r, hr, hev⟩

/-- Claim C15.  For every channel and every poll sequence forming one
physical press (a run of low reads, from `Release` or any other state, ended
by a high read), with either auto-repeat setting: if any poll of the press
returned `longPress_determined` or `continuous_press`, then the releasing
poll returns no event (`Release`, not `momentPress_determined`) and leaves
the channel in `Release`. -/
theorem pushButton_release_after_long_press (ch : Channel) (cont : Bool)
    (chatter long : Nat) (times : List Nat) (release : Nat)
    (hev : ∃ r ∈ (pollAll cont chatter long ch (lowPolls times)).1,
      r = .longPress_determined ∨ r = .continuous_press) :
    (pushButton .HIGH release (pollAll cont chatter long ch (lowPolls times)).2
        cont chatter long).1 = .Release ∧
      (pushButton .HIGH release (pollAll cont chatter long ch (lowPolls times)).2
        cont chatter long).2.button_status = .Release ∧
      (pollAll cont chatter long ch (lowPolls times ++ [(.HIGH, release)])).1.getLast? =
        some .Release := by
  have hst := hold_event_latched cont chatter long times ch hev
  have hpoll : ∀ (l : List Nat) (c : Channel),
      (pollAll cont chatter long c (lowPolls l ++ [(.HIGH, release)])).1.getLast? =
        some (pushButton .HIGH release (pollAll cont chatter long c (lowPolls l)).2
          cont chatter long).1 := by
    intro l
    induction l with
    | nil => intro c; rfl
    | cons t rest ih =>
      intro c
      simp only [lowPolls, List.map_cons, List.cons_append, pollAll_cons]
      have h := ih (pushButton .LOW t c cont chatter long).2
      simp only [lowPolls] at h
      rw [← h]
      generalize (pollAll cont chatter long (pushButton .LOW t c cont chatter long).2
        (List.map (fun t => (PinLevel.LOW, t)) rest ++ [(.HIGH, release)])).1 = tail at h ⊢
      cases tail with
      | nil => simp at h
      | cons a as => simp [List.getLast?_cons_cons]
  have hrel : (pushButton .HIGH release (pollAll cont chatter long ch (lowPolls times)).2
      cont chatter long).1 = .Release := by
    unfold pushButton
    simp only []
    rcases hst with hst | hst <;> simp [hst]
  refine ⟨hrel, ?_, ?_⟩
  · unfold pushButton
    simp
  · rw [hpoll times ch, hrel]

/-- Witness for `pushButton_release_after_long_press`: the back button as
`mp3Playback` polls it (auto-repeat, threshold 500), pressed at 0 and
released at 900 after a `continuous_press` event at 700. -/
theorem pushButton_release_after_long_press_witness :
    (pushButton .HIGH 900 (pollAll true 10 500 ⟨.Release, 0⟩ (lowPolls [0, 600, 700])).2
        true 10 500).1 = .Release ∧
      (pushButton .HIGH 900 (pollAll true 10 500 ⟨.Release, 0⟩ (lowPolls [0, 600, 700])).2
        true 10 500).2.button_status = .Release :=
  have h := pushButton_release_after_long_press ⟨.Release, 0⟩ true 10 500 [0, 600, 700] 900
    ⟨.continuous_press, by decide, Or.inr rfl⟩
  ⟨h.1, h.2.1⟩

/-! ## Mode cycle -/

/-- Claim C16.  In `mp3Playback` each `continuous_press` event of the back
button advances the playback mode by the cycle `normal -> shuffle -> repeat ->
normal`, whatever the level and the random draws at that moment; hence from
every mode three consecutive such events return to the starting mode, and
three events starting from `normal` end in `normal`. -/
theorem modeSwitch_cycle (d1 d2 d3 : Dir) (r1 r2 r3 : Nat → Nat) (st : Playback)
    (subscript : List Nat) :
    backButton .continuous_press d1 r1 st = some (modeSwitch d1 r1 st) ∧
      (modeSwitch d1 r1 st).mode = nextMode st.mode ∧
      (modeSwitch d3 r3 (modeSwitch d2 r2 (modeSwitch d1 r1 st))).mode = st.mode ∧
      (modeSwitch d3 r3 (modeSwitch d2 r2 (modeSwitch d1 r1 ⟨.normal, subscript⟩))).mode =
        .normal := by
  rcases st with ⟨mode, sub⟩
  refine ⟨by simp [backButton], ?_, ?_, rfl⟩
  · cases mode <;> rfl
  · cases mode <;> rfl

end ESP32Player
